import Mathlib

/-!
# Vicalib engine: capture admission and calibration lifecycle

A shallow embedding of `Applications/vicalib/src/vicalib-engine.cc` and
`calibration-stats.h` (non-GUI build), followed by theorems about the frame
admission policy, the capture loop of `Run` and the polling loop of
`CalibrateAndDrawLoop`.

Conventions of the embedding.

* Calls into collaborators whose code is not part of the engine (the camera,
  the calibration task, its optimizer) are answered by scripts: every call
  consumes the next scripted answer. A loop that asks for an answer when its
  script is used up is reported as `pending` (it is still running).
* Calls that are visible from outside the engine are recorded, in order, as
  a trace of `Event`s.
* Aborts (`CHECK`, `CHECK_EQ`, `LOG(FATAL)`) and undefined behaviour (null
  `shared_ptr` dereference, out-of-range vector access, signed overflow) are
  explicit `Fault`s.
-/

namespace Vicalib

/-! ## Data model -/

/-- How an execution leaves defined behaviour. -/
inductive Fault
  | check_failed
  | undefined
  deriving DecidableEq, Repr

/-- A C++ `double` carried as the exact fraction `num / den` of the literal
or quotient that produced it (`den = 0` stands for a non-finite value). The
engine stores and copies doubles; it never compares them. -/
structure Double where
  num : Int
  den : Nat
  deriving DecidableEq, Repr

/-- The literal `static const int64_t kCalibrateAllPossibleFrames = -1`. -/
def kCalibrateAllPossibleFrames : Int := -1

/-- The largest value of a 32-bit `int`. -/
def INT_MAX : Int := 2147483647

/-- The enum `CalibrationStats::CalibrationStatus`. -/
inductive CalibrationStatus
  | StatusInactive
  | StatusCapturing
  | StatusOptimizing
  | StatusSuccess
  | StatusFailure
  deriving DecidableEq, Repr

/-- The struct `CalibrationStats` of calibration-stats.h. -/
structure CalibrationStats where
  cam_names : List String
  num_frames_processed : List Int
  reprojection_error : List Double
  total_mse : Double
  status : CalibrationStatus
  num_iterations : Int
  deriving DecidableEq, Repr

/-- The constructor `CalibrationStats(int nstreams)`. -/
def CalibrationStats.create (nstreams : Nat) : CalibrationStats :=
  { cam_names := List.replicate nstreams ""
    num_frames_processed := List.replicate nstreams 0
    reprojection_error := List.replicate nstreams ⟨0, 1⟩
    total_mse := ⟨0, 1⟩
    status := CalibrationStatus.StatusInactive
    num_iterations := 0 }

/-- The enum constants of grid-definitions.h that `InitTask` switches on;
the header is not part of the sources, so their values are parameters. -/
structure GridDefinitions where
  GridPresetGWUSmall : Int
  GridPresetGoogleLarge : Int
  StaticThresholdManual : Int
  StaticThresholdStrict : Int
  deriving DecidableEq, Repr

/-- The gflags of vicalib-engine.cc (the `FLAGS_*` globals). -/
structure Flags where
  calibrate_intrinsics : Bool
  device_serial : String
  exit_vicalib_on_finish : Bool
  frame_skip : Int
  grid_height : Int
  grid_width : Int
  grid_spacing : Double
  grid_seed : Int
  has_initial_guess : Bool
  grid_preset : Int
  max_reprojection_error : Double
  num_vicalib_frames : Int
  output : String
  output_log_file : String
  scaled_ir_depth_cal : Bool
  static_accel_threshold : Double
  static_gyro_threshold : Double
  static_threshold_preset : Int
  use_grid_preset : Bool
  use_only_when_static : Bool
  use_static_threshold_preset : Bool
  cam : String
  imu : String
  models : String
  deriving DecidableEq, Repr

/-- The default values of the `DEFINE_*` lines. -/
def Flags.defaults (defs : GridDefinitions) : Flags :=
  { calibrate_intrinsics := true
    device_serial := "-1"
    exit_vicalib_on_finish := false
    frame_skip := 0
    grid_height := 10
    grid_width := 19
    grid_spacing := ⟨1355, 100000⟩
    grid_seed := 71
    has_initial_guess := false
    grid_preset := defs.GridPresetGWUSmall
    max_reprojection_error := ⟨15, 100⟩
    num_vicalib_frames := kCalibrateAllPossibleFrames
    output := "cameras.xml"
    output_log_file := "vicalibrator.log"
    scaled_ir_depth_cal := false
    static_accel_threshold := ⟨8, 100⟩
    static_gyro_threshold := ⟨4, 100⟩
    static_threshold_preset := defs.StaticThresholdManual
    use_grid_preset := false
    use_only_when_static := true
    use_static_threshold_preset := false
    cam := ""
    imu := ""
    models := "" }

/-- The camera collaborator as far as the engine reads it: one
(width, height) pair per channel. -/
structure Camera where
  channels : List (Nat × Nat)
  deriving DecidableEq, Repr

/-- The call `camera_->NumChannels()`. -/
def Camera.NumChannels (c : Camera) : Nat := c.channels.length

/-- The call `camera_->Width(i)`. -/
def Camera.Width (c : Camera) (i : Nat) : Nat := (c.channels.getD i (0, 0)).1

/-- The call `camera_->Height(i)`. -/
def Camera.Height (c : Camera) (i : Nat) : Nat := (c.channels.getD i (0, 0)).2

/-- The projection models `InitTask` can instantiate. -/
inductive CameraModel
  | Fov
  | Poly2
  | Poly3
  | ProjectionKannalaBrandt
  deriving DecidableEq, Repr

/-- One entry of `input_cameras`: the starting camera model with its
parameter vector, and whether `SetRDF(RdfRobotics)` was applied to it. -/
structure CameraAndPose where
  model : CameraModel
  w : Int
  h : Int
  params : List Double
  rdf_robotics : Bool
  deriving DecidableEq, Repr

/-- The grid handed to the task. -/
inductive Grid
  | GWUSmallGrid
  | GoogleLargeGrid
  | MakePattern (grid_height grid_width grid_seed : Int)
  deriving DecidableEq, Repr

/-- The arguments `InitTask` constructs the `VicalibTask` with, and the
biases and scale factors it sets on the calibrator. -/
structure VicalibTask where
  num_cameras : Nat
  widths : List Nat
  heights : List Nat
  grid_spacing : Double
  grid : Grid
  fix_intrinsics : Bool
  input_cameras : List CameraAndPose
  max_errors : List Double
  biases : List Double
  scale_factors : List Double
  deriving DecidableEq, Repr

/-- A `pb::ImuMsg`: the accelerometer and gyroscope vectors are optional
fields (`has_accel()`, `has_gyro()`). -/
structure ImuMsg (V : Type) where
  accel : Option V
  gyro : Option V
  deriving DecidableEq, Repr

/-- The stability filter class is declared outside the sources; the engine
uses its constructor `(window, threshold)`, `Add` and `IsStable`, which are
parameters of the embedding, together with the enum constants. -/
structure Env (F V : Type) where
  defs : GridDefinitions
  create : Nat → Double → F
  Add : F → V → F
  IsStable : F → Bool

/-- The calls of the engine that are visible to its collaborators. -/
inductive Event (V : Type)
  | Capture (captured : Bool)
  | AddSuperFrame (valid_frames : List Bool)
  | UpdateStats (snapshot : CalibrationStats)
  | Draw
  | AddIMU (msg : ImuMsg V)
  | StopSensors
  | Start (has_initial_guess : Bool)
  | Finish (output_filename : String)
  | WriteCameraModels (output_filename : String)
  | Exit (code : Int)
  deriving DecidableEq, Repr

/-- The members of `VicalibEngine`, with the flags it reads and writes.
`imu_registered` says that `imu_` was created and `ImuHandler` registered.
The class declaration is not among the sources; `frames_skipped_` is taken
to be an `int`, like the flag it is compared with. -/
structure VicalibEngine (F : Type) where
  flags : Flags
  camera_ : Camera
  imu_registered : Bool
  frames_skipped_ : Int
  sensors_finished_ : Bool
  gyro_filter_ : F
  accel_filter_ : F
  stats_ : CalibrationStats
  vicalib_ : Option VicalibTask

/-- What opening the devices yields: `none` when `new hal::Camera` throws,
`imu_opens = false` when `new hal::IMU` throws. -/
structure Hardware where
  camera : Option Camera
  imu_opens : Bool
  deriving DecidableEq, Repr

/-- The constructor `VicalibEngine::VicalibEngine`. A camera that cannot be
opened leaves `camera_` null, and `camera_->NumChannels()` dereferences it. -/
def VicalibEngine.construct {F V : Type} (env : Env F V) (flags : Flags) (hw : Hardware) :
    Except Fault (VicalibEngine F) :=
  if flags.cam = "" then Except.error Fault.check_failed
  else
    match hw.camera with
    | none => Except.error Fault.undefined
    | some cam =>
      Except.ok
        { flags := flags
          camera_ := cam
          imu_registered := decide (flags.imu ≠ "") && hw.imu_opens
          frames_skipped_ := 0
          sensors_finished_ := false
          gyro_filter_ := env.create 10 flags.static_gyro_threshold
          accel_filter_ := env.create 10 flags.static_accel_threshold
          stats_ := CalibrationStats.create cam.NumChannels
          vicalib_ := none }

/-! ## InitTask -/

/-- The loop `while (std::getline(ss, item, ','))`: `acc` holds the
characters of the current item, newest first. At the end of the input an
item is produced only if characters were extracted for it. -/
def getlineItems : List Char → List Char → List String
  | acc, [] => if acc = [] then [] else [String.mk acc.reverse]
  | acc, c :: cs =>
    if c = ',' then String.mk acc.reverse :: getlineItems [] cs
    else getlineItems (c :: acc) cs

/-- The if-else chain on `type` of `InitTask`: the camera that is appended
to `input_cameras`, if any. The chain has no final `else`. -/
def starting_cam (type : String) (w h : Int) : Option CameraAndPose :=
  if type = "fov" then
    some ⟨CameraModel.Fov, w, h, [⟨300, 1⟩, ⟨300, 1⟩, ⟨w, 2⟩, ⟨h, 2⟩, ⟨2, 10⟩], false⟩
  else if type = "poly2" then
    some ⟨CameraModel.Poly2, w, h,
      [⟨300, 1⟩, ⟨300, 1⟩, ⟨w, 2⟩, ⟨h, 2⟩, ⟨0, 1⟩, ⟨0, 1⟩], false⟩
  else if type = "poly3" ∨ type = "poly" then
    some ⟨CameraModel.Poly3, w, h,
      [⟨300, 1⟩, ⟨300, 1⟩, ⟨w, 2⟩, ⟨h, 2⟩, ⟨0, 1⟩, ⟨0, 1⟩, ⟨0, 1⟩], false⟩
  else if type = "kb4" then
    some ⟨CameraModel.ProjectionKannalaBrandt, w, h,
      [⟨300, 1⟩, ⟨300, 1⟩, ⟨w, 2⟩, ⟨h, 2⟩, ⟨0, 1⟩, ⟨0, 1⟩, ⟨0, 1⟩, ⟨0, 1⟩], false⟩
  else none

/-- The statement `input_cameras.back().camera.SetRDF(...)`; `none` when the
vector is empty (`back()` on an empty vector). -/
def setRDFBack : List CameraAndPose → Option (List CameraAndPose)
  | [] => none
  | [c] => some [{ c with rdf_robotics := true }]
  | c :: d :: rest => (setRDFBack (d :: rest)).map (fun l => c :: l)

/-- The loop `for (size_t i = 0; i < model_strings.size(); ++i)` of
`InitTask`, from index `i` on, with `input_cameras` built so far. -/
def inputCamerasLoop (cam : Camera) :
    List String → Nat → List CameraAndPose → Except Fault (List CameraAndPose)
  | [], _, input_cameras => Except.ok input_cameras
  | type :: rest, i, input_cameras =>
    let w : Int := cam.Width i
    let h : Int := cam.Height i
    let appended :=
      match starting_cam type w h with
      | some c => input_cameras ++ [c]
      | none => input_cameras
    match setRDFBack appended with
    | none => Except.error Fault.undefined
    | some cams => inputCamerasLoop cam rest (i + 1) cams

/-- The grid selection of `InitTask`: the grid and the grid spacing, or the
`LOG(FATAL)` of the default case. -/
def selectGrid (defs : GridDefinitions) (flags : Flags) : Except Fault (Grid × Double) :=
  if flags.use_grid_preset then
    if flags.grid_preset = defs.GridPresetGWUSmall then
      Except.ok (Grid.GWUSmallGrid, ⟨254, 18000⟩)
    else if flags.grid_preset = defs.GridPresetGoogleLarge then
      Except.ok (Grid.GoogleLargeGrid, ⟨3156, 100000⟩)
    else Except.error Fault.check_failed
  else
    Except.ok
      (Grid.MakePattern flags.grid_height flags.grid_width flags.grid_seed, flags.grid_spacing)

/-- The static threshold preset of `InitTask`: it overwrites the two
threshold flags, or hits the `LOG(FATAL)` of the default case. -/
def selectThresholds (defs : GridDefinitions) (flags : Flags) : Except Fault Flags :=
  if flags.use_static_threshold_preset then
    if flags.static_threshold_preset = defs.StaticThresholdManual then
      Except.ok { flags with static_accel_threshold := ⟨9, 100⟩, static_gyro_threshold := ⟨5, 100⟩ }
    else if flags.static_threshold_preset = defs.StaticThresholdStrict then
      Except.ok { flags with static_accel_threshold := ⟨5, 100⟩, static_gyro_threshold := ⟨25, 1000⟩ }
    else Except.error Fault.check_failed
  else Except.ok flags

/-- The function `VicalibEngine::InitTask`: the task it returns and the flags
as it leaves them. The returned pointer comes from `new` and is never null. -/
def InitTask (defs : GridDefinitions) (flags : Flags) (cam : Camera) :
    Except Fault (VicalibTask × Flags) :=
  let widths := (List.range cam.NumChannels).map cam.Width
  let heights := (List.range cam.NumChannels).map cam.Height
  let model_strings := getlineItems [] flags.models.toList
  if model_strings.length ≠ cam.NumChannels then Except.error Fault.check_failed
  else
    match inputCamerasLoop cam model_strings 0 [] with
    | Except.error f => Except.error f
    | Except.ok input_cameras =>
      match selectGrid defs flags with
      | Except.error f => Except.error f
      | Except.ok (grid, grid_spacing) =>
        match selectThresholds defs flags with
        | Except.error f => Except.error f
        | Except.ok flags1 =>
          Except.ok
            ({ num_cameras := cam.NumChannels
               widths := widths
               heights := heights
               grid_spacing := grid_spacing
               grid := grid
               fix_intrinsics := !flags1.calibrate_intrinsics
               input_cameras := input_cameras
               max_errors := List.replicate cam.NumChannels flags1.max_reprojection_error
               biases := List.replicate 6 ⟨0, 1⟩
               scale_factors := List.replicate 6 ⟨1, 1⟩ }, flags1)

/-! ## CameraLoop -/

/-- The statement `++stats_->num_frames_processed[ii]`: undefined when `ii`
is outside the vector or the `int` is already `INT_MAX`. -/
def incrementProcessed (counts : List Int) (ii : Nat) : Except Fault (List Int) :=
  match counts.get? ii with
  | none => Except.error Fault.undefined
  | some c =>
    if c < INT_MAX then Except.ok (counts.set ii (c + 1)) else Except.error Fault.undefined

/-- The loop `for (size_t ii = 0; ii < valid_frames.size(); ++ii)` of
`CameraLoop`, from index `ii` on; the first argument is what is left of
`valid_frames` from that index. -/
def countValidFrames : List Bool → Nat → List Int → Except Fault (List Int)
  | [], _, counts => Except.ok counts
  | v :: rest, ii, counts =>
    if v then
      match incrementProcessed counts ii with
      | Except.error f => Except.error f
      | Except.ok counts1 => countValidFrames rest (ii + 1) counts1
    else countValidFrames rest (ii + 1) counts

/-- What the collaborators answer during one `CameraLoop` call: the result of
`camera_->Capture`, and the vector `vicalib_->AddSuperFrame` returns if it is
called. -/
structure FrameInput where
  captured : Bool
  valid_frames : List Bool
  deriving DecidableEq, Repr

/-- The head of `CameraLoop`: `if (!vicalib_) vicalib_ = InitTask();`. -/
def ensureTask {F V : Type} (env : Env F V) (e : VicalibEngine F) :
    Except Fault (VicalibEngine F) :=
  match e.vicalib_ with
  | some _ => Except.ok e
  | none =>
    match InitTask env.defs e.flags e.camera_ with
    | Except.error f => Except.error f
    | Except.ok (task, flags1) => Except.ok { e with vicalib_ := some task, flags := flags1 }

/-- The value of `should_use` in `CameraLoop`. -/
def should_use {F V : Type} (env : Env F V) (e : VicalibEngine F) : Bool :=
  if e.flags.use_only_when_static then
    env.IsStable e.accel_filter_ && env.IsStable e.gyro_filter_
  else true

/-- The test `frames_skipped_ >= FLAGS_frame_skip` of `CameraLoop`. -/
def skipReached {F : Type} (e : VicalibEngine F) : Bool :=
  decide (e.frames_skipped_ ≥ e.flags.frame_skip)

/-- The admission block of `CameraLoop` (the `if`/`else` on the skip
counter): the new engine state and the events of the block. The increment
of `frames_skipped_` happens only below the 32-bit flag `frame_skip`, so it
cannot overflow. -/
def admission {F V : Type} (env : Env F V) (e : VicalibEngine F) (inp : FrameInput) :
    Except Fault (VicalibEngine F × List (Event V)) :=
  if skipReached e then
    if inp.captured && should_use env e then
      match countValidFrames inp.valid_frames 0 e.stats_.num_frames_processed with
      | Except.error f => Except.error f
      | Except.ok counts =>
        Except.ok
          ({ e with
              frames_skipped_ := 0
              stats_ := { e.stats_ with num_frames_processed := counts } },
            [Event.AddSuperFrame inp.valid_frames])
    else Except.ok (e, [])
  else Except.ok ({ e with frames_skipped_ := e.frames_skipped_ + 1 }, [])

/-- The function `VicalibEngine::CameraLoop` (build without GUI): its return
value, the engine state it leaves and its events. -/
def CameraLoop {F V : Type} (env : Env F V) (e : VicalibEngine F) (inp : FrameInput) :
    Except Fault (Bool × VicalibEngine F × List (Event V)) :=
  match ensureTask env e with
  | Except.error f => Except.error f
  | Except.ok e1 =>
    match admission env e1 inp with
    | Except.error f => Except.error f
    | Except.ok (e2, evs) =>
      let e3 : VicalibEngine F :=
        { e2 with stats_ := { e2.stats_ with status := CalibrationStatus.StatusCapturing } }
      Except.ok
        (inp.captured, e3,
          [Event.Capture inp.captured] ++ evs ++ [Event.UpdateStats e3.stats_, Event.Draw])

/-! ## ImuHandler -/

/-- The function `VicalibEngine::ImuHandler`: the two `CHECK`s, the two
`Add` calls, then `vicalib_->AddIMU(imu)`, which dereferences `vicalib_`. -/
def ImuHandler {F V : Type} (env : Env F V) (e : VicalibEngine F) (imu : ImuMsg V) :
    Except Fault (VicalibEngine F × List (Event V)) :=
  match imu.accel with
  | none => Except.error Fault.check_failed
  | some accel =>
    match imu.gyro with
    | none => Except.error Fault.check_failed
    | some gyro =>
      let e1 : VicalibEngine F :=
        { e with
            accel_filter_ := env.Add e.accel_filter_ accel
            gyro_filter_ := env.Add e.gyro_filter_ gyro }
      match e1.vicalib_ with
      | none => Except.error Fault.undefined
      | some _ => Except.ok (e1, [Event.AddIMU imu])

/-- The IMU device calling the registered callback once per message, in
order. An engine without a registered handler receives nothing. -/
def deliverImu {F V : Type} (env : Env F V) :
    VicalibEngine F → List (ImuMsg V) → Except Fault (VicalibEngine F × List (Event V))
  | e, [] => Except.ok (e, [])
  | e, m :: ms =>
    if e.imu_registered then
      match ImuHandler env e m with
      | Except.error f => Except.error f
      | Except.ok (e1, evs) =>
        match deliverImu env e1 ms with
        | Except.error f => Except.error f
        | Except.ok (e2, evs2) => Except.ok (e2, evs ++ evs2)
    else Except.ok (e, [])

/-! ## SeenEnough -/

/-- The expression `*std::max_element(begin, end)`; `none` on an empty
vector, where it dereferences `end()`. -/
def max_element : List Int → Option Int
  | [] => none
  | x :: xs => some (xs.foldl max x)

/-- The function `VicalibEngine::SeenEnough`, with the short-circuit
evaluation of `(A && B) || C`. -/
def SeenEnough {F : Type} (e : VicalibEngine F) : Except Fault Bool :=
  if e.flags.num_vicalib_frames ≠ kCalibrateAllPossibleFrames then
    match max_element e.stats_.num_frames_processed with
    | none => Except.error Fault.undefined
    | some m =>
      if m ≥ e.flags.num_vicalib_frames then Except.ok true
      else Except.ok e.sensors_finished_
  else Except.ok e.sensors_finished_

/-! ## Sequences of CameraLoop calls -/

/-- One step of a capture session: the IMU messages the device delivers
before the call, then the answers for one `CameraLoop` call. -/
structure StepInput (V : Type) where
  imu : List (ImuMsg V)
  frame : FrameInput

/-- What one step did: whether the skip test `frames_skipped_ >=
FLAGS_frame_skip` held when `CameraLoop` reached it, the value `CameraLoop`
returned, and the events of the step. -/
structure StepLog (V : Type) where
  evaluated : Bool
  captured : Bool
  events : List (Event V)

/-- One step: IMU deliveries, then `CameraLoop`. -/
def cameraStep {F V : Type} (env : Env F V) (e : VicalibEngine F) (inp : StepInput V) :
    Except Fault (VicalibEngine F × StepLog V) :=
  match deliverImu env e inp.imu with
  | Except.error f => Except.error f
  | Except.ok (e1, evs1) =>
    match CameraLoop env e1 inp.frame with
    | Except.error f => Except.error f
    | Except.ok (captured, e2, evs2) =>
      Except.ok (e2, { evaluated := skipReached e1, captured := captured, events := evs1 ++ evs2 })

/-- How a scripted loop ends: control leaves the loop, the script is used
up while the loop is still running, or a fault stops the program. -/
inductive LoopEnd (S : Type)
  | left (s : S)
  | pending (s : S)
  | fault (f : Fault)

/-- A caller invoking `CameraLoop` once per step, whatever it returns: the
logs of the steps that completed, and the state after the last one or the
fault that stopped the sequence. -/
def CameraLoops {F V : Type} (env : Env F V) :
    VicalibEngine F → List (StepInput V) → List (StepLog V) × Except Fault (VicalibEngine F)
  | e, [] => ([], Except.ok e)
  | e, inp :: rest =>
    match cameraStep env e inp with
    | Except.error f => ([], Except.error f)
    | Except.ok (e1, log) =>
      let r := CameraLoops env e1 rest
      (log :: r.1, r.2)

/-- Whether a step called `AddSuperFrame`. -/
def isAddSuperFrame {V : Type} : Event V → Bool
  | Event.AddSuperFrame _ => true
  | _ => false

/-- Whether a step admitted its frame. -/
def StepLog.admitted {V : Type} (l : StepLog V) : Bool := l.events.any isAddSuperFrame

/-- Whether a step admitted its frame with a usable detection on stream `i`. -/
def StepLog.admittedValid {V : Type} (i : Nat) (l : StepLog V) : Bool :=
  l.events.any
    (fun ev =>
      match ev with
      | Event.AddSuperFrame valid_frames => valid_frames.getD i false
      | _ => false)

/-! ## Run and CalibrateAndDrawLoop -/

/-- One iteration of the capture loop of `Run`: a step, and the answer of
`vicalib_->IsRunning()` in the loop condition (asked only when `CameraLoop`
returned true). -/
structure LoopInput (V : Type) where
  step : StepInput V
  running : Bool

/-- The loop `while (CameraLoop() && !vicalib_->IsRunning() && !SeenEnough()) {}`
of `Run`, with the events so far in `trace`. -/
def captureLoop {F V : Type} (env : Env F V) :
    VicalibEngine F → List (LoopInput V) → List (Event V) →
      List (Event V) × LoopEnd (VicalibEngine F)
  | e, [], trace => (trace, LoopEnd.pending e)
  | e, inp :: rest, trace =>
    match cameraStep env e inp.step with
    | Except.error f => (trace, LoopEnd.fault f)
    | Except.ok (e1, log) =>
      if log.captured then
        match e1.vicalib_ with
        | none => (trace ++ log.events, LoopEnd.fault Fault.undefined)
        | some _ =>
          if inp.running then (trace ++ log.events, LoopEnd.left e1)
          else
            match SeenEnough e1 with
            | Except.error f => (trace ++ log.events, LoopEnd.fault f)
            | Except.ok true => (trace ++ log.events, LoopEnd.left e1)
            | Except.ok false => captureLoop env e1 rest (trace ++ log.events)
      else (trace ++ log.events, LoopEnd.left e1)

/-- What the task answers in one iteration of the polling loop: the three
progress readings, `IsRunning()` and `IsSuccessful()` (the last two are
asked only while `finished` is false). -/
structure PollInput where
  mse : Double
  rmse : List Double
  iterations : Int
  running : Bool
  successful : Bool
  deriving DecidableEq, Repr

/-- The answers for `CalibrateAndDrawLoop`: `IsRunning()` at entry, the
answers of `IsRunning()` in the waiting loop, and the polling iterations. -/
structure OptScript where
  running_at_entry : Bool
  wait : List Bool
  poll : List PollInput
  deriving DecidableEq, Repr

/-- How a run of the program ends. -/
inductive Outcome
  | returned
  | exited
  | pending
  | fault (f : Fault)
  deriving DecidableEq, Repr

/-- An execution: its events in order, and how it ends. -/
structure Exec (V : Type) where
  trace : List (Event V)
  outcome : Outcome

/-- The function `VicalibEngine::WriteCalibration`. -/
def WriteCalibration {V : Type} (flags : Flags) : List (Event V) :=
  [Event.WriteCameraModels flags.output]

/-- The loop `while (!vicalib_->IsRunning()) { usleep(500); }`: true when
some answer is true, false when the answers run out first. -/
def waitLoop : List Bool → Bool
  | [] => false
  | r :: rest => if r then true else waitLoop rest

/-- How one iteration of the polling loop ends: it goes on with new values
of `stats_` and `finished`, or the process exits. -/
inductive PollCtl
  | next (stats : CalibrationStats) (finished : Bool)
  | exit

/-- The three assignments that open the body of the polling loop: the
progress readings are copied into `stats_`. -/
def pullProgress (stats : CalibrationStats) (p : PollInput) : CalibrationStats :=
  { stats with
      total_mse := p.mse
      reprojection_error := p.rmse
      num_iterations := p.iterations }

/-- The status the polling loop resolves to: `IsSuccessful() ? StatusSuccess
: StatusFailure`. -/
def resolvedStatus (successful : Bool) : CalibrationStatus :=
  if successful then CalibrationStatus.StatusSuccess else CalibrationStatus.StatusFailure

/-- The body of the `while (true)` loop of `CalibrateAndDrawLoop`; of the
engine it reads and writes `stats_` and the local `finished`. -/
def pollBody {V : Type} (flags : Flags) (stats : CalibrationStats) (finished : Bool)
    (p : PollInput) : List (Event V) × PollCtl :=
  let stats1 := pullProgress stats p
  let published : List (Event V) := [Event.UpdateStats stats1]
  if !finished && !p.running then
    let stats2 := { stats1 with status := resolvedStatus p.successful }
    let resolved : List (Event V) :=
      published ++ [Event.Finish flags.output] ++ WriteCalibration flags
    if flags.exit_vicalib_on_finish then (resolved ++ [Event.Exit 0], PollCtl.exit)
    else (resolved ++ [Event.Draw], PollCtl.next stats2 true)
  else (published ++ [Event.Draw], PollCtl.next stats1 finished)

/-- The `while (true)` loop of `CalibrateAndDrawLoop`: the body has no
`break` and no `return`. -/
def pollLoop {V : Type} (flags : Flags) :
    CalibrationStats → Bool → List PollInput → List (Event V) → Exec V
  | _, _, [], trace => ⟨trace, Outcome.pending⟩
  | stats, finished, p :: rest, trace =>
    match pollBody flags stats finished p with
    | (evs, PollCtl.exit) => ⟨trace ++ evs, Outcome.exited⟩
    | (evs, PollCtl.next stats1 finished1) => pollLoop flags stats1 finished1 rest (trace ++ evs)

/-- The function `VicalibEngine::CalibrateAndDrawLoop`. -/
def CalibrateAndDrawLoop {F V : Type} (e : VicalibEngine F) (s : OptScript) : Exec V :=
  match e.vicalib_ with
  | none => ⟨[], Outcome.fault Fault.undefined⟩
  | some _ =>
    let started : List (Event V) :=
      if !s.running_at_entry then [Event.Start e.flags.has_initial_guess] else []
    if waitLoop s.wait then
      pollLoop e.flags { e.stats_ with status := CalibrationStatus.StatusOptimizing } false
        s.poll started
    else ⟨started, Outcome.pending⟩

/-- The answers for one run: the capture loop, then `CalibrateAndDrawLoop`. -/
structure RunScript (V : Type) where
  frames : List (LoopInput V)
  opt : OptScript

/-- The function `VicalibEngine::Run`. -/
def Run {F V : Type} (env : Env F V) (e : VicalibEngine F) (s : RunScript V) : Exec V :=
  match captureLoop env e s.frames [] with
  | (trace, LoopEnd.fault f) => ⟨trace, Outcome.fault f⟩
  | (trace, LoopEnd.pending _) => ⟨trace, Outcome.pending⟩
  | (trace, LoopEnd.left e1) =>
    let x : Exec V := CalibrateAndDrawLoop e1 s.opt
    ⟨trace ++ [Event.StopSensors] ++ x.trace, x.outcome⟩

/-- The statuses of the snapshots a trace publishes, in order. -/
def publishedStatuses {V : Type} : List (Event V) → List CalibrationStatus
  | [] => []
  | Event.UpdateStats snapshot :: rest => snapshot.status :: publishedStatuses rest
  | _ :: rest => publishedStatuses rest

/-! ## A stability filter for concrete runs -/

/-- Modelled from the spec: the StabilityFilter class (section 4.1; its
code is not among the sources). A window of fixed size over the most recent
samples, oldest first; sample components are in thousandths of a unit. -/
structure StabilityFilter where
  window_size : Nat
  threshold : Double
  buffer : List (List Int)
  deriving DecidableEq, Repr

/-- Modelled from the spec: `Add` appends a sample, evicting the oldest
when the window is full. -/
def StabilityFilter.Add (f : StabilityFilter) (sample : List Int) : StabilityFilter :=
  { f with
      buffer :=
        (if f.buffer.length ≥ f.window_size then f.buffer.drop 1 else f.buffer) ++ [sample] }

/-- Modelled from the spec: a sample's magnitude (in thousandths) is below
the threshold `num / den`; both sides are compared squared. -/
def StabilityFilter.below (threshold : Double) (sample : List Int) : Bool :=
  decide (0 < threshold.num) &&
    decide ((sample.map (fun c => c * c)).sum * ((threshold.den : Int) * threshold.den)
      < threshold.num * threshold.num * 1000000)

/-- Modelled from the spec: `IsStable` is true iff the window is full and
every buffered sample's magnitude is below the threshold. -/
def StabilityFilter.IsStable (f : StabilityFilter) : Bool :=
  decide (f.buffer.length = f.window_size) && f.buffer.all (StabilityFilter.below f.threshold)

/-- The embedding's parameters for concrete runs: the filter above, and the
enum constants numbered in declaration order. -/
def specEnv : Env StabilityFilter (List Int) :=
  { defs :=
      { GridPresetGWUSmall := 0
        GridPresetGoogleLarge := 1
        StaticThresholdManual := 0
        StaticThresholdStrict := 1 }
    create := fun window threshold => ⟨window, threshold, []⟩
    Add := StabilityFilter.Add
    IsStable := StabilityFilter.IsStable }

/-- The flags of a session with one `fov` camera: the defaults, with the
camera URI and the model list given. -/
def oneCameraFlags : Flags :=
  { Flags.defaults specEnv.defs with cam := "file://log", imu := "file://imu", models := "fov" }

/-- Devices that open: one 640x480 camera channel and an IMU. -/
def oneCameraHardware : Hardware :=
  { camera := some ⟨[(640, 480)]⟩, imu_opens := true }

/-- The engine state the constructor leaves for `flags` on the one-camera
hardware (the constructor succeeds there whenever `flags.cam` is not empty;
otherwise this is the same state, never used). -/
def freshEngine (flags : Flags) : VicalibEngine StabilityFilter :=
  { flags := flags
    camera_ := ⟨[(640, 480)]⟩
    imu_registered := decide (flags.imu ≠ "")
    frames_skipped_ := 0
    sensors_finished_ := false
    gyro_filter_ := ⟨10, flags.static_gyro_threshold, []⟩
    accel_filter_ := ⟨10, flags.static_accel_threshold, []⟩
    stats_ := CalibrationStats.create 1
    vicalib_ := none }

/-- The engine state a successful call leaves, or `e` when the call faults. -/
def stateAfter {F A : Type} (e : VicalibEngine F) (x : Except Fault (VicalibEngine F × A)) :
    VicalibEngine F :=
  match x with
  | Except.ok (e1, _) => e1
  | Except.error _ => e

/-- An IMU message with both vectors. -/
def imuSample (accel gyro : List Int) : ImuMsg (List Int) := ⟨some accel, some gyro⟩

/-- The scenario of the stability gate: a fresh one-camera engine with the
default flags (stability required, accelerometer threshold 0.08), after one
`CameraLoop` call has created the task and one IMU sample with accelerometer
magnitude 0.5 has been delivered. -/
def shakenEngine : VicalibEngine StabilityFilter :=
  stateAfter (freshEngine oneCameraFlags)
    (cameraStep specEnv (freshEngine oneCameraFlags)
      ⟨[], ⟨false, []⟩⟩ >>= fun r =>
        deliverImu specEnv r.1 [imuSample [500, 0, 0] [0, 0, 0]])

/-- The events of polling iterations that only publish and draw: one
snapshot with the iteration's readings, then `Draw`. -/
def quietTrace {V : Type} (stats : CalibrationStats) : List PollInput → List (Event V)
  | [] => []
  | p :: rest => Event.UpdateStats (pullProgress stats p) :: Event.Draw :: quietTrace stats rest

/-- Whether an event is a call of `Finish`. -/
def isFinish {V : Type} : Event V → Bool
  | Event.Finish _ => true
  | _ => false

/-- Whether an event is a call of `WriteCameraModels`. -/
def isWriteCameraModels {V : Type} : Event V → Bool
  | Event.WriteCameraModels _ => true
  | _ => false

/-- Whether an event is a call of `Capture`. -/
def isCapture {V : Type} : Event V → Bool
  | Event.Capture _ => true
  | _ => false

/-- Polling answers of the failure scenario: one iteration with the
optimizer running, then the optimizer has stopped with a final RMSE of 0.20
against the bound 0.15 (`IsSuccessful()` false), then one more iteration. -/
def failurePoll : List PollInput :=
  [⟨⟨9, 100⟩, [⟨30, 100⟩], 3, true, false⟩,
   ⟨⟨4, 100⟩, [⟨20, 100⟩], 7, false, false⟩,
   ⟨⟨4, 100⟩, [⟨20, 100⟩], 7, false, false⟩]

/-- The failure scenario for `CalibrateAndDrawLoop`: the task is not running
at entry and reports running at the second poll of the waiting loop. -/
def failureScript : OptScript :=
  { running_at_entry := false, wait := [false, true], poll := failurePoll }

/-- A run in which the first capture fails, which ends the capture loop,
and the optimizer then goes through the failure scenario. -/
def stoppedRun : RunScript (List Int) :=
  { frames := [⟨⟨[], ⟨false, []⟩⟩, false⟩], opt := failureScript }

/-- A run with three scripted frames of which the second fails to capture;
the task is never reported running during capture, and the default frame
limit is unlimited. -/
def transientFailureRun : RunScript (List Int) :=
  { frames :=
      [⟨⟨[], ⟨true, [true]⟩⟩, false⟩, ⟨⟨[], ⟨false, []⟩⟩, false⟩, ⟨⟨[], ⟨true, [true]⟩⟩, false⟩]
    opt := { running_at_entry := false, wait := [true], poll := [] } }

/-- The flags of a session with two cameras, without the stability gate. -/
def twoCameraFlags : Flags :=
  { Flags.defaults specEnv.defs with
      cam := "file://log", models := "fov,kb4", use_only_when_static := false }

/-- Devices for the two-camera session: two channels, no IMU. -/
def twoCameraHardware : Hardware :=
  { camera := some ⟨[(640, 480), (320, 240)]⟩, imu_opens := false }

/-- Three steps of the two-camera session: a frame usable on stream 0 only,
a failed capture, and a frame usable on both streams. -/
def threeSteps : List (StepInput (List Int)) :=
  [⟨[], ⟨true, [true, false]⟩⟩, ⟨[], ⟨false, [true, true]⟩⟩, ⟨[], ⟨true, [true, true]⟩⟩]

/-- The one-camera flags with `frame_skip = 1` (stability still required,
as by default). -/
def skipOneFlags : Flags := { oneCameraFlags with frame_skip := 1 }

/-- Three steps, each with a successful capture and a usable detection, and
no IMU message. -/
def threeCaptures : List (StepInput (List Int)) :=
  [⟨[], ⟨true, [true]⟩⟩, ⟨[], ⟨true, [true]⟩⟩, ⟨[], ⟨true, [true]⟩⟩]

/-- The flags of the frame-limit scenario: one stream, `frame_skip = 0`, no
stability gate, five frames to calibrate. -/
def fiveFrameFlags : Flags :=
  { oneCameraFlags with use_only_when_static := false, num_vicalib_frames := 5 }

/-- Capture-loop answers of the frame-limit scenario: six scripted frames,
each captured with a usable detection while the task is not running; an IMU
sample arrives before the third frame. -/
def goodFrames : List (LoopInput (List Int)) :=
  [⟨⟨[], ⟨true, [true]⟩⟩, false⟩, ⟨⟨[], ⟨true, [true]⟩⟩, false⟩,
   ⟨⟨[imuSample [10, 0, 0] [0, 0, 0]], ⟨true, [true]⟩⟩, false⟩, ⟨⟨[], ⟨true, [true]⟩⟩, false⟩,
   ⟨⟨[], ⟨true, [true]⟩⟩, false⟩, ⟨⟨[], ⟨true, [true]⟩⟩, false⟩]

/-- Flags that declare two models of which the second is not a recognised
camera-model type. -/
def bogusModelFlags : Flags := { twoCameraFlags with models := "fov,bogus" }

/-- Flags that declare one model for the two-channel camera. -/
def missingModelFlags : Flags := { twoCameraFlags with models := "fov" }

/-- The engine state the constructor leaves for `flags` on the two-camera
hardware. -/
def freshTwoCameraEngine (flags : Flags) : VicalibEngine StabilityFilter :=
  { flags := flags
    camera_ := ⟨[(640, 480), (320, 240)]⟩
    imu_registered := false
    frames_skipped_ := 0
    sensors_finished_ := false
    gyro_filter_ := ⟨10, flags.static_gyro_threshold, []⟩
    accel_filter_ := ⟨10, flags.static_accel_threshold, []⟩
    stats_ := CalibrationStats.create 2
    vicalib_ := none }

/-- Whether a string is one of the camera-model types `InitTask` knows. -/
def recognisedModel (type : String) : Bool :=
  type = "fov" || type = "poly2" || type = "poly3" || type = "poly" || type = "kb4"

/-- The one-camera flags with `frame_skip = 2` and the stability gate off. -/
def skipTwoFlags : Flags :=
  { oneCameraFlags with frame_skip := 2, use_only_when_static := false }

/-- Seven steps, each with a successful capture and a usable detection, and
no IMU message. -/
def sevenCaptures : List (StepInput (List Int)) :=
  List.replicate 7 ⟨[], ⟨true, [true]⟩⟩

/-! ## Basic facts about the embedding -/

theorem construct_freshEngine (flags : Flags) (h : flags.cam ≠ "") :
    VicalibEngine.construct specEnv flags oneCameraHardware = Except.ok (freshEngine flags) := by
  simp [VicalibEngine.construct, h, oneCameraHardware, freshEngine, specEnv, Camera.NumChannels]

theorem selectThresholds_ok {defs : GridDefinitions} {flags flags1 : Flags}
    (h : selectThresholds defs flags = Except.ok flags1) :
    flags1 = { flags with
      static_accel_threshold := flags1.static_accel_threshold
      static_gyro_threshold := flags1.static_gyro_threshold } := by
  unfold selectThresholds at h
  split_ifs at h <;> injection h with h <;> subst h <;> rfl

theorem InitTask_flags {defs : GridDefinitions} {flags flags1 : Flags} {cam : Camera}
    {task : VicalibTask} (h : InitTask defs flags cam = Except.ok (task, flags1)) :
    flags1 = { flags with
      static_accel_threshold := flags1.static_accel_threshold
      static_gyro_threshold := flags1.static_gyro_threshold } := by
  unfold InitTask at h
  simp only at h
  split_ifs at h
  split at h
  · cases h
  · split at h
    · cases h
    · split at h
      · cases h
      · rename_i hthr
        injection h with h
        injection h with h1 h2
        subst h2
        exact selectThresholds_ok hthr

/-- What `ensureTask` leaves untouched: everything but the task pointer and
the two threshold flags. -/
theorem ensureTask_ok {F V : Type} {env : Env F V} {e e1 : VicalibEngine F}
    (h : ensureTask env e = Except.ok e1) :
    ∃ task accel gyro,
      e1 = { e with
        vicalib_ := some task
        flags := { e.flags with static_accel_threshold := accel, static_gyro_threshold := gyro } } := by
  unfold ensureTask at h
  split at h
  · rename_i task htask
    injection h with h
    subst h
    refine ⟨task, e.flags.static_accel_threshold, e.flags.static_gyro_threshold, ?_⟩
    cases e
    simp_all
  · split at h
    · cases h
    · rename_i task flags1 hinit
      injection h with h
      subst h
      refine ⟨task, flags1.static_accel_threshold, flags1.static_gyro_threshold, ?_⟩
      rw [← InitTask_flags hinit]

/-- The admission block decides as the skip test, the capture result and
`should_use` say; a rejected or skipped frame leaves the counts alone. -/
theorem admission_ok {F V : Type} {env : Env F V} {e e2 : VicalibEngine F} {inp : FrameInput}
    {evs : List (Event V)} (h : admission env e inp = Except.ok (e2, evs)) :
    (evs.any isAddSuperFrame = true ↔
        skipReached e = true ∧ inp.captured = true ∧ should_use env e = true) ∧
      (evs.any isAddSuperFrame = false →
        e2.stats_.num_frames_processed = e.stats_.num_frames_processed) := by
  unfold admission at h
  by_cases hs : skipReached e = true
  · by_cases hc : (inp.captured && should_use env e) = true
    · rw [if_pos hs, if_pos hc] at h
      split at h
      · cases h
      · injection h with h
        injection h with h1 h2
        subst h1 h2
        simp only [Bool.and_eq_true] at hc
        simp [isAddSuperFrame, hs, hc]
    · rw [if_pos hs, if_neg hc] at h
      injection h with h
      injection h with h1 h2
      subst h1 h2
      simp only [Bool.and_eq_true] at hc
      simp [hs, hc]
  · rw [if_neg hs] at h
    injection h with h
    injection h with h1 h2
    subst h1 h2
    simp [hs]

/-- C1. In a `CameraLoop` step whose skip counter has reached the threshold
(`frames_skipped_ >= frame_skip`) the frame is admitted (`AddSuperFrame` is
called) iff `Capture` returned true and either `use_only_when_static` is
false or both filters report `IsStable`; in a step with `frames_skipped_ <
frame_skip` the frame is not admitted; and with `use_only_when_static` set
and a filter that is not stable the frame is rejected and no per-stream
count changes. -/
theorem C1_admission_rule {F V : Type} (env : Env F V) (e e1 : VicalibEngine F)
    (inp : FrameInput) (r : Bool) (evs : List (Event V))
    (h : CameraLoop env e inp = Except.ok (r, e1, evs)) :
    (e.frames_skipped_ ≥ e.flags.frame_skip →
        (evs.any isAddSuperFrame = true ↔
          inp.captured = true ∧
            (e.flags.use_only_when_static = false ∨
              (env.IsStable e.accel_filter_ = true ∧ env.IsStable e.gyro_filter_ = true)))) ∧
      (e.frames_skipped_ < e.flags.frame_skip → evs.any isAddSuperFrame = false) ∧
      (e.flags.use_only_when_static = true →
        (env.IsStable e.accel_filter_ = false ∨ env.IsStable e.gyro_filter_ = false) →
        evs.any isAddSuperFrame = false ∧
          e1.stats_.num_frames_processed = e.stats_.num_frames_processed) := by
  unfold CameraLoop at h
  split at h
  · cases h
  · rename_i e0 hens
    obtain ⟨task, accel, gyro, he0⟩ := ensureTask_ok hens
    split at h
    · cases h
    · rename_i e2 evs2 hadm
      obtain ⟨hiff, hsame⟩ := admission_ok hadm
      injection h with h
      injection h with hr h
      injection h with he1 hevs
      subst hr he1 hevs
      have hany : ∀ b, (([Event.Capture inp.captured] ++ evs2 ++
          [Event.UpdateStats ({ e2.stats_ with status := CalibrationStatus.StatusCapturing }),
            Event.Draw] : List (Event V)).any isAddSuperFrame = b) ↔
          (evs2.any isAddSuperFrame = b) := by
        intro b
        simp [isAddSuperFrame]
      have hskip : skipReached e0 = decide (e.frames_skipped_ ≥ e.flags.frame_skip) := by
        subst he0
        rfl
      have huse : should_use env e0 =
          (if e.flags.use_only_when_static then
            env.IsStable e.accel_filter_ && env.IsStable e.gyro_filter_ else true) := by
        subst he0
        rfl
      have hcounts : e0.stats_.num_frames_processed = e.stats_.num_frames_processed := by
        subst he0
        rfl
      simp only [hany]
      refine ⟨?_, ?_, ?_⟩
      · intro hge
        rw [hiff, hskip, huse]
        cases hst : e.flags.use_only_when_static <;> simp [hge]
      · intro hlt
        cases hb : evs2.any isAddSuperFrame
        · rfl
        · have := hiff.mp hb
          rw [hskip] at this
          simp at this
          omega
      · intro hst hunstable
        have hno : evs2.any isAddSuperFrame = false := by
          cases hb : evs2.any isAddSuperFrame
          · rfl
          · have := hiff.mp hb
            rw [huse, hst] at this
            simp at this
            rcases hunstable with hu | hu <;> simp [hu] at this
        exact ⟨hno, (hsame hno).trans hcounts⟩

/-- The stability scenario: stability is required, a single accelerometer
sample of magnitude 0.5 has arrived, and a captured frame is rejected. -/
theorem C1_admission_rule_witness :
    ∃ e1 evs,
      CameraLoop specEnv shakenEngine ⟨true, [true]⟩ = Except.ok (true, e1, evs) ∧
        shakenEngine.flags.use_only_when_static = true ∧
        specEnv.IsStable shakenEngine.accel_filter_ = false ∧
        shakenEngine.accel_filter_.buffer = [[500, 0, 0]] ∧
        evs.any isAddSuperFrame = false ∧
        e1.stats_.num_frames_processed = shakenEngine.stats_.num_frames_processed :=
  ⟨_, _, rfl, by decide, by decide, by decide,
    (C1_admission_rule specEnv shakenEngine _ ⟨true, [true]⟩ true _ rfl).2.2
      (by decide) (Or.inl (by decide))⟩

/-! ## The polling loop -/

theorem publishedStatuses_append {V : Type} (a b : List (Event V)) :
    publishedStatuses (a ++ b) = publishedStatuses a ++ publishedStatuses b := by
  induction a with
  | nil => rfl
  | cons ev rest ih => cases ev <;> simp [publishedStatuses, ih]

/-- The events so far are a prefix of the trace of the polling loop and do
not influence how it goes on. -/
theorem pollLoop_trace {V : Type} (flags : Flags) (ps : List PollInput) :
    ∀ (stats : CalibrationStats) (finished : Bool) (trace : List (Event V)),
      pollLoop flags stats finished ps trace =
        ⟨trace ++ (pollLoop flags stats finished ps []).trace,
          (pollLoop flags stats finished ps ([] : List (Event V))).outcome⟩ := by
  induction ps with
  | nil => intro stats finished trace; simp [pollLoop]
  | cons p rest ih =>
    intro stats finished trace
    simp only [pollLoop]
    rcases hb : (pollBody flags stats finished p : List (Event V) × PollCtl) with ⟨evs, ctl⟩
    cases ctl with
    | exit => simp
    | next stats1 finished1 =>
      simp only
      rw [ih stats1 finished1 (trace ++ evs), ih stats1 finished1 ([] ++ evs)]
      simp

theorem pullProgress_pullProgress (stats : CalibrationStats) (p q : PollInput) :
    pullProgress (pullProgress stats p) q = pullProgress stats q := rfl

theorem pullProgress_status (stats : CalibrationStats) (p : PollInput) :
    (pullProgress stats p).status = stats.status := rfl

/-- An iteration with `finished` set, or with the task still running,
publishes one snapshot and draws. -/
theorem pollBody_quiet {V : Type} (flags : Flags) (stats : CalibrationStats) (finished : Bool)
    (p : PollInput) (h : finished = true ∨ p.running = true) :
    (pollBody flags stats finished p : List (Event V) × PollCtl) =
      ([Event.UpdateStats (pullProgress stats p), Event.Draw],
        PollCtl.next (pullProgress stats p) finished) := by
  unfold pollBody
  rcases h with h | h <;> simp [h]

/-- The polling loop reads `stats_` through the fields it does not
overwrite. -/
theorem pollLoop_congr {V : Type} (flags : Flags) (ps : List PollInput) :
    ∀ (stats stats1 : CalibrationStats) (finished : Bool),
      (∀ p, pullProgress stats p = pullProgress stats1 p) →
      pollLoop flags stats finished ps ([] : List (Event V)) =
        pollLoop flags stats1 finished ps [] := by
  induction ps with
  | nil => intro stats stats1 finished _; rfl
  | cons p rest ih =>
    intro stats stats1 finished hs
    simp only [pollLoop, pollBody, hs p]

theorem quietTrace_pullProgress {V : Type} (stats : CalibrationStats) (p : PollInput)
    (ps : List PollInput) :
    (quietTrace (pullProgress stats p) ps : List (Event V)) = quietTrace stats ps := by
  induction ps with
  | nil => rfl
  | cons q rest ih => simp [quietTrace, ih, pullProgress_pullProgress]

/-- A run of quiet iterations: their events, then the loop goes on as if
from the first state. -/
theorem pollLoop_quiet {V : Type} (flags : Flags) (pre rest : List PollInput) :
    ∀ (stats : CalibrationStats) (finished : Bool),
      (∀ q ∈ pre, finished = true ∨ q.running = true) →
        pollLoop flags stats finished (pre ++ rest) ([] : List (Event V)) =
          ⟨quietTrace stats pre ++ (pollLoop flags stats finished rest []).trace,
            (pollLoop flags stats finished rest ([] : List (Event V))).outcome⟩ := by
  induction pre with
  | nil => intro stats finished _; simp [quietTrace]
  | cons p pre ih =>
    intro stats finished h
    have hp := pollBody_quiet (V := V) flags stats finished p (h p (List.mem_cons_self _ _))
    simp only [List.cons_append, pollLoop, hp, List.append_eq]
    rw [pollLoop_trace, ih _ finished (fun q hq => h q (List.mem_cons_of_mem _ hq))]
    rw [pollLoop_congr flags rest (pullProgress stats p) stats finished
      (fun q => pullProgress_pullProgress _ _ _)]
    simp [quietTrace, quietTrace_pullProgress]

theorem quietTrace_congr {V : Type} (stats stats1 : CalibrationStats)
    (h : ∀ p, pullProgress stats p = pullProgress stats1 p) (ps : List PollInput) :
    (quietTrace stats ps : List (Event V)) = quietTrace stats1 ps := by
  induction ps with
  | nil => rfl
  | cons q rest ih => simp [quietTrace, ih, h q]

/-- With `finished` set, or while every answer of `IsRunning()` is true,
the polling loop only publishes and draws, and it does not end. -/
theorem pollLoop_all_quiet {V : Type} (flags : Flags) (stats : CalibrationStats)
    (finished : Bool) (ps : List PollInput)
    (h : ∀ q ∈ ps, finished = true ∨ q.running = true) :
    pollLoop flags stats finished ps ([] : List (Event V)) =
      ⟨quietTrace stats ps, Outcome.pending⟩ := by
  have := pollLoop_quiet (V := V) flags ps [] stats finished h
  simpa [pollLoop] using this

/-- The iteration in which `IsRunning()` first reports false: the snapshot,
`Finish`, `WriteCameraModels`, then either `exit(0)` or quiet iterations
with the resolved status for ever. -/
theorem pollLoop_resolution {V : Type} (flags : Flags) (stats : CalibrationStats)
    (p : PollInput) (post : List PollInput) (hp : p.running = false) :
    pollLoop flags stats false (p :: post) ([] : List (Event V)) =
      if flags.exit_vicalib_on_finish then
        ⟨[Event.UpdateStats (pullProgress stats p), Event.Finish flags.output,
            Event.WriteCameraModels flags.output, Event.Exit 0], Outcome.exited⟩
      else
        ⟨[Event.UpdateStats (pullProgress stats p), Event.Finish flags.output,
            Event.WriteCameraModels flags.output, Event.Draw] ++
            quietTrace { stats with status := resolvedStatus p.successful } post,
          Outcome.pending⟩ := by
  by_cases hx : flags.exit_vicalib_on_finish = true
  · simp [pollLoop, pollBody, hp, hx, WriteCalibration]
  · have hbody : (pollBody flags stats false p : List (Event V) × PollCtl) =
        ([Event.UpdateStats (pullProgress stats p), Event.Finish flags.output,
            Event.WriteCameraModels flags.output, Event.Draw],
          PollCtl.next { pullProgress stats p with status := resolvedStatus p.successful }
            true) := by
      simp [pollBody, hp, hx, WriteCalibration]
    simp only [pollLoop, hbody, if_neg hx]
    rw [pollLoop_trace, pollLoop_all_quiet flags _ true post (fun _ _ => Or.inl rfl)]
    simp only [List.nil_append]
    congr 2
    apply quietTrace_congr
    intro q
    rfl

/-- Every script of polling answers either keeps the task running
throughout or has a first iteration in which `IsRunning()` reports false. -/
theorem first_not_running (ps : List PollInput) :
    (∀ q ∈ ps, q.running = true) ∨
      ∃ pre p post, ps = pre ++ p :: post ∧ (∀ q ∈ pre, q.running = true) ∧ p.running = false := by
  induction ps with
  | nil => exact Or.inl (fun _ h => by cases h)
  | cons a rest ih =>
    cases ha : a.running with
    | false => exact Or.inr ⟨[], a, rest, rfl, fun _ h => (by cases h), ha⟩
    | true =>
      rcases ih with h | ⟨pre, p, post, hps, hpre, hp⟩
      · left
        intro q hq
        rcases List.mem_cons.mp hq with rfl | hq
        · exact ha
        · exact h q hq
      · right
        refine ⟨a :: pre, p, post, by simp [hps], ?_, hp⟩
        intro q hq
        rcases List.mem_cons.mp hq with rfl | hq
        · exact ha
        · exact hpre q hq

theorem quietTrace_countP_isFinish {V : Type} (stats : CalibrationStats) (ps : List PollInput) :
    (quietTrace stats ps : List (Event V)).countP isFinish = 0 := by
  induction ps with
  | nil => rfl
  | cons q rest ih => simpa [quietTrace, isFinish] using ih

theorem quietTrace_countP_isWriteCameraModels {V : Type} (stats : CalibrationStats)
    (ps : List PollInput) :
    (quietTrace stats ps : List (Event V)).countP isWriteCameraModels = 0 := by
  induction ps with
  | nil => rfl
  | cons q rest ih => simpa [quietTrace, isWriteCameraModels] using ih

/-- The trace of the polling loop entered with `finished = false`, when the
first not-running answer comes after the iterations `pre`. -/
theorem pollLoop_split {V : Type} (flags : Flags) (stats : CalibrationStats)
    (pre post : List PollInput) (p : PollInput)
    (hpre : ∀ q ∈ pre, q.running = true) (hp : p.running = false) :
    pollLoop flags stats false (pre ++ p :: post) ([] : List (Event V)) =
      if flags.exit_vicalib_on_finish then
        ⟨quietTrace stats pre ++
          [Event.UpdateStats (pullProgress stats p), Event.Finish flags.output,
            Event.WriteCameraModels flags.output, Event.Exit 0], Outcome.exited⟩
      else
        ⟨quietTrace stats pre ++
          ([Event.UpdateStats (pullProgress stats p), Event.Finish flags.output,
            Event.WriteCameraModels flags.output, Event.Draw] ++
            quietTrace { stats with status := resolvedStatus p.successful } post),
          Outcome.pending⟩ := by
  rw [pollLoop_quiet flags pre (p :: post) stats false (fun q hq => Or.inr (hpre q hq)),
    pollLoop_resolution flags stats p post hp]
  split_ifs <;> rfl

/-- The events of `CalibrateAndDrawLoop` before the polling loop. -/
theorem CalibrateAndDrawLoop_polling {F V : Type} (e : VicalibEngine F) (s : OptScript)
    (task : VicalibTask) (htask : e.vicalib_ = some task) (hwait : waitLoop s.wait = true) :
    (CalibrateAndDrawLoop e s : Exec V) =
      ⟨(if !s.running_at_entry then [Event.Start e.flags.has_initial_guess] else []) ++
          (pollLoop e.flags { e.stats_ with status := CalibrationStatus.StatusOptimizing } false
            s.poll []).trace,
        (pollLoop e.flags { e.stats_ with status := CalibrationStatus.StatusOptimizing } false
          s.poll ([] : List (Event V))).outcome⟩ := by
  unfold CalibrateAndDrawLoop
  rw [htask]
  simp only [hwait, if_true]
  rw [pollLoop_trace]

/-- Before the polling loop `CalibrateAndDrawLoop` calls at most `Start`. -/
theorem CalibrateAndDrawLoop_not_polling {F V : Type} (e : VicalibEngine F) (s : OptScript)
    (h : e.vicalib_ = none ∨ waitLoop s.wait = false) :
    (CalibrateAndDrawLoop e s : Exec V).outcome ≠ Outcome.returned ∧
      (CalibrateAndDrawLoop e s : Exec V).outcome ≠ Outcome.exited ∧
      ((CalibrateAndDrawLoop e s : Exec V).trace = [] ∨
        (CalibrateAndDrawLoop e s : Exec V).trace = [Event.Start e.flags.has_initial_guess]) := by
  unfold CalibrateAndDrawLoop
  cases hv : e.vicalib_ with
  | none => simp
  | some task =>
    rcases h with h | h
    · rw [hv] at h; cases h
    · cases hr : s.running_at_entry <;> simp [h]

/-- The trace of `CalibrateAndDrawLoop` around the first polling iteration
in which `IsRunning()` reports false. -/
theorem CalibrateAndDrawLoop_split {F V : Type} (e : VicalibEngine F) (s : OptScript)
    (task : VicalibTask) (pre post : List PollInput) (p : PollInput)
    (htask : e.vicalib_ = some task) (hwait : waitLoop s.wait = true)
    (hpoll : s.poll = pre ++ p :: post) (hpre : ∀ q ∈ pre, q.running = true)
    (hp : p.running = false) :
    (CalibrateAndDrawLoop e s : Exec V).trace =
      (if !s.running_at_entry then [Event.Start e.flags.has_initial_guess] else []) ++
        quietTrace { e.stats_ with status := CalibrationStatus.StatusOptimizing } pre ++
        [Event.UpdateStats
            (pullProgress { e.stats_ with status := CalibrationStatus.StatusOptimizing } p),
          Event.Finish e.flags.output, Event.WriteCameraModels e.flags.output] ++
        (if e.flags.exit_vicalib_on_finish then [Event.Exit 0]
          else
            Event.Draw ::
              quietTrace
                { e.stats_ with
                    status :=
                      if p.successful then CalibrationStatus.StatusSuccess
                      else CalibrationStatus.StatusFailure }
                post) := by
  rw [CalibrateAndDrawLoop_polling e s task htask hwait, hpoll,
    pollLoop_split e.flags _ pre post p hpre hp]
  by_cases hx : e.flags.exit_vicalib_on_finish = true
  · simp [hx]
  · simp [hx, resolvedStatus]

/-- In every execution of `CalibrateAndDrawLoop`, `Finish` and
`WriteCameraModels` are called at most once. -/
theorem CalibrateAndDrawLoop_once {F V : Type} (e : VicalibEngine F) (s : OptScript) :
    (CalibrateAndDrawLoop e s : Exec V).trace.countP isFinish ≤ 1 ∧
      (CalibrateAndDrawLoop e s : Exec V).trace.countP isWriteCameraModels ≤ 1 := by
  cases hv : e.vicalib_ with
  | none =>
    have h := (CalibrateAndDrawLoop_not_polling (V := V) e s (Or.inl hv)).2.2
    rcases h with h | h <;> simp [h, isFinish, isWriteCameraModels]
  | some task =>
    cases hw : waitLoop s.wait with
    | false =>
      have h := (CalibrateAndDrawLoop_not_polling (V := V) e s (Or.inr hw)).2.2
      rcases h with h | h <;> simp [h, isFinish, isWriteCameraModels]
    | true =>
      rcases first_not_running s.poll with hall | ⟨pre, p, post, hpoll, hpre, hp⟩
      · rw [CalibrateAndDrawLoop_polling e s task hv hw,
          pollLoop_all_quiet e.flags _ false s.poll (fun q hq => Or.inr (hall q hq))]
        cases hr : s.running_at_entry <;>
          simp [List.countP_append, quietTrace_countP_isFinish,
            quietTrace_countP_isWriteCameraModels, isFinish, isWriteCameraModels]
      · rw [CalibrateAndDrawLoop_split e s task pre post p hv hw hpoll hpre hp]
        cases hr : s.running_at_entry <;> cases hx : e.flags.exit_vicalib_on_finish <;>
          simp [List.countP_append, List.countP_cons, quietTrace_countP_isFinish,
            quietTrace_countP_isWriteCameraModels, isFinish, isWriteCameraModels]

/-! ## One step of the capture session -/

/-- `CameraLoop` is `ensureTask`, the admission block, then the snapshot. -/
theorem CameraLoop_ok {F V : Type} {env : Env F V} {e e1 : VicalibEngine F} {inp : FrameInput}
    {r : Bool} {evs : List (Event V)} (h : CameraLoop env e inp = Except.ok (r, e1, evs)) :
    ∃ e0 e2 adm, ensureTask env e = Except.ok e0 ∧ admission env e0 inp = Except.ok (e2, adm) ∧
      r = inp.captured ∧
      e1 = { e2 with stats_ := { e2.stats_ with status := CalibrationStatus.StatusCapturing } } ∧
      evs = [Event.Capture inp.captured] ++ adm ++ [Event.UpdateStats e1.stats_, Event.Draw] := by
  unfold CameraLoop at h
  split at h
  · cases h
  · rename_i e0 hens
    split at h
    · cases h
    · rename_i e2 adm hadm
      injection h with h
      injection h with hr h
      injection h with he1 hevs
      subst hr he1 hevs
      exact ⟨e0, e2, adm, hens, hadm, rfl, rfl, rfl⟩

/-- The admission block touches the skip counter and the per-stream counts
only, and calls at most `AddSuperFrame`. -/
theorem admission_shape {F V : Type} {env : Env F V} {e e2 : VicalibEngine F} {inp : FrameInput}
    {adm : List (Event V)} (h : admission env e inp = Except.ok (e2, adm)) :
    (adm = [] ∨ adm = [Event.AddSuperFrame inp.valid_frames]) ∧
      e2 = { e with
        frames_skipped_ := e2.frames_skipped_
        stats_ := { e.stats_ with num_frames_processed := e2.stats_.num_frames_processed } } := by
  unfold admission at h
  split_ifs at h
  · split at h
    · cases h
    · injection h with h
      injection h with h1 h2
      subst h1 h2
      exact ⟨Or.inr rfl, rfl⟩
  · injection h with h
    injection h with h1 h2
    subst h1 h2
    exact ⟨Or.inl rfl, rfl⟩
  · injection h with h
    injection h with h1 h2
    subst h1 h2
    exact ⟨Or.inl rfl, rfl⟩

/-- A call of `ImuHandler` that returns: the message carries both vectors,
the task exists, both filters got their vector and the message went to
`AddIMU`. -/
theorem ImuHandler_ok {F V : Type} {env : Env F V} {e e1 : VicalibEngine F} {m : ImuMsg V}
    {evs : List (Event V)} (h : ImuHandler env e m = Except.ok (e1, evs)) :
    ∃ accel gyro task, m.accel = some accel ∧ m.gyro = some gyro ∧ e.vicalib_ = some task ∧
      e1 = { e with
        accel_filter_ := env.Add e.accel_filter_ accel
        gyro_filter_ := env.Add e.gyro_filter_ gyro } ∧
      evs = [Event.AddIMU m] := by
  unfold ImuHandler at h
  cases ha : m.accel with
  | none => rw [ha] at h; cases h
  | some accel =>
    cases hg : m.gyro with
    | none => rw [ha, hg] at h; cases h
    | some gyro =>
      cases hv : e.vicalib_ with
      | none => rw [ha, hg] at h; simp only [hv] at h; cases h
      | some task =>
        rw [ha, hg] at h
        simp only [hv] at h
        injection h with h
        injection h with h1 h2
        subst h1 h2
        exact ⟨accel, gyro, task, rfl, rfl, rfl, rfl, rfl⟩

/-- IMU deliveries touch the two filters only, and call only `AddIMU`. -/
theorem deliverImu_shape {F V : Type} {env : Env F V} (ms : List (ImuMsg V)) :
    ∀ {e e1 : VicalibEngine F} {evs : List (Event V)},
      deliverImu env e ms = Except.ok (e1, evs) →
      e1 = { e with accel_filter_ := e1.accel_filter_, gyro_filter_ := e1.gyro_filter_ } ∧
        ∀ ev ∈ evs, ∃ m, ev = Event.AddIMU m := by
  induction ms with
  | nil =>
    intro e e1 evs h
    simp only [deliverImu] at h
    injection h with h
    injection h with h1 h2
    subst h1 h2
    exact ⟨rfl, fun _ hev => by cases hev⟩
  | cons m rest ih =>
    intro e e1 evs h
    simp only [deliverImu] at h
    split_ifs at h
    · split at h
      · cases h
      · rename_i ea evsa hh
        split at h
        · cases h
        · rename_i eb evsb hrest
          injection h with h
          injection h with h1 h2
          subst h1 h2
          obtain ⟨hb, hevb⟩ := ih hrest
          obtain ⟨accel, gyro, task, _, _, _, hea, hevsa⟩ := ImuHandler_ok hh
          subst hea hevsa
          refine ⟨?_, ?_⟩
          · rw [hb]
          · intro ev hev
            rcases List.mem_append.mp hev with hev | hev
            · exact ⟨m, by simpa using hev⟩
            · exact hevb ev hev
    · injection h with h
      injection h with h1 h2
      subst h1 h2
      exact ⟨rfl, fun _ hev => by cases hev⟩

/-- A step that completes, taken apart. -/
theorem cameraStep_ok {F V : Type} {env : Env F V} {e e1 : VicalibEngine F} {inp : StepInput V}
    {log : StepLog V} (h : cameraStep env e inp = Except.ok (e1, log)) :
    ∃ ea imuEvs e0 e2 adm,
      deliverImu env e inp.imu = Except.ok (ea, imuEvs) ∧ ensureTask env ea = Except.ok e0 ∧
      admission env e0 inp.frame = Except.ok (e2, adm) ∧
      e1 = { e2 with stats_ := { e2.stats_ with status := CalibrationStatus.StatusCapturing } } ∧
      log = ⟨skipReached ea, inp.frame.captured,
        imuEvs ++ ([Event.Capture inp.frame.captured] ++ adm ++
          [Event.UpdateStats e1.stats_, Event.Draw])⟩ := by
  unfold cameraStep at h
  split at h
  · cases h
  · rename_i ea imuEvs himu
    split at h
    · cases h
    · rename_i captured e2 evs2 hloop
      obtain ⟨e0, e3, adm, hens, hadm, hr, he, hevs⟩ := CameraLoop_ok hloop
      injection h with h
      injection h with h1 h2
      subst h1 h2 hr hevs
      exact ⟨ea, imuEvs, e0, e3, adm, himu, hens, hadm, he, rfl⟩

theorem publishedStatuses_AddIMU {V : Type} (evs : List (Event V))
    (h : ∀ ev ∈ evs, ∃ m, ev = Event.AddIMU m) : publishedStatuses evs = [] := by
  induction evs with
  | nil => rfl
  | cons ev rest ih =>
    obtain ⟨m, rfl⟩ := h ev (List.mem_cons_self _ _)
    simpa [publishedStatuses] using ih (fun ev hev => h ev (List.mem_cons_of_mem _ hev))

theorem filter_isCapture_AddIMU {V : Type} (evs : List (Event V))
    (h : ∀ ev ∈ evs, ∃ m, ev = Event.AddIMU m) : evs.filter isCapture = [] := by
  induction evs with
  | nil => rfl
  | cons ev rest ih =>
    obtain ⟨m, rfl⟩ := h ev (List.mem_cons_self _ _)
    simpa [isCapture] using ih (fun ev hev => h ev (List.mem_cons_of_mem _ hev))

/-- What a completed step guarantees to the loop around it. -/
theorem cameraStep_facts {F V : Type} {env : Env F V} {e e1 : VicalibEngine F}
    {inp : StepInput V} {log : StepLog V} (h : cameraStep env e inp = Except.ok (e1, log)) :
    log.captured = inp.frame.captured ∧ (∃ task, e1.vicalib_ = some task) ∧
      (∃ accel gyro, e1.flags =
        { e.flags with static_accel_threshold := accel, static_gyro_threshold := gyro }) ∧
      e1.sensors_finished_ = e.sensors_finished_ ∧
      e1.stats_.status = CalibrationStatus.StatusCapturing ∧
      publishedStatuses log.events = [CalibrationStatus.StatusCapturing] ∧
      log.events.filter isCapture = [Event.Capture inp.frame.captured] := by
  obtain ⟨ea, imuEvs, e0, e2, adm, himu, hens, hadm, he1, hlog⟩ := cameraStep_ok h
  obtain ⟨hea, himuEvs⟩ := deliverImu_shape _ himu
  obtain ⟨task, accel, gyro, he0⟩ := ensureTask_ok hens
  obtain ⟨hadm1, he2⟩ := admission_shape hadm
  subst hlog
  refine ⟨rfl, ⟨task, ?_⟩, ⟨accel, gyro, ?_⟩, ?_, ?_, ?_, ?_⟩
  · rw [he1, he2, he0]
  · rw [he1, he2, he0, hea]
  · rw [he1, he2, he0, hea]
  · rw [he1]
  · simp only [publishedStatuses_append, publishedStatuses_AddIMU imuEvs himuEvs]
    rcases hadm1 with hadm1 | hadm1 <;> simp [hadm1, publishedStatuses, he1]
  · simp only [List.filter_append, filter_isCapture_AddIMU imuEvs himuEvs]
    rcases hadm1 with hadm1 | hadm1 <;> simp [hadm1, isCapture]

/-! ## The capture loop of Run -/

/-- The events so far are a prefix of the trace of the capture loop and do
not influence how it goes on. -/
theorem captureLoop_trace {F V : Type} (env : Env F V) (frames : List (LoopInput V)) :
    ∀ (e : VicalibEngine F) (trace : List (Event V)),
      captureLoop env e frames trace =
        (trace ++ (captureLoop env e frames []).1, (captureLoop env e frames []).2) := by
  induction frames with
  | nil => intro e trace; simp [captureLoop]
  | cons inp rest ih =>
    intro e trace
    simp only [captureLoop]
    cases hstep : cameraStep env e inp.step with
    | error f => simp
    | ok x =>
      obtain ⟨e1, log⟩ := x
      simp only
      cases hc : log.captured with
      | false => simp
      | true =>
        cases hv : e1.vicalib_ with
        | none => simp
        | some task =>
          cases hr : inp.running with
          | true => simp
          | false =>
            cases hs : SeenEnough e1 with
            | error f => simp
            | ok b =>
              cases b with
              | true => simp
              | false =>
                simp only [if_true, Bool.false_eq_true, if_false]
                rw [ih e1 (trace ++ log.events), ih e1 ([] ++ log.events)]
                simp

/-- One iteration of the capture loop, by cases on what ends it. -/
theorem captureLoop_cons {F V : Type} (env : Env F V) (e : VicalibEngine F)
    (inp : LoopInput V) (rest : List (LoopInput V)) :
    (∃ f, cameraStep env e inp.step = Except.error f ∧
        captureLoop env e (inp :: rest) [] = ([], LoopEnd.fault f)) ∨
    ∃ e1 log, cameraStep env e inp.step = Except.ok (e1, log) ∧
      ((captureLoop env e (inp :: rest) [] = (log.events, LoopEnd.left e1) ∧
          (inp.step.frame.captured = false ∨ inp.running = true ∨
            SeenEnough e1 = Except.ok true)) ∨
        (∃ f, captureLoop env e (inp :: rest) [] = (log.events, LoopEnd.fault f)) ∨
        (inp.step.frame.captured = true ∧ inp.running = false ∧
          SeenEnough e1 = Except.ok false ∧
          captureLoop env e (inp :: rest) [] =
            (log.events ++ (captureLoop env e1 rest []).1, (captureLoop env e1 rest []).2))) := by
  cases hstep : cameraStep env e inp.step with
  | error f => exact Or.inl ⟨f, rfl, by simp [captureLoop, hstep]⟩
  | ok x =>
    obtain ⟨e1, log⟩ := x
    right
    refine ⟨e1, log, rfl, ?_⟩
    obtain ⟨hcap, ⟨task, htask⟩, -⟩ := cameraStep_facts hstep
    simp only [captureLoop, hstep, hcap, htask, List.nil_append]
    cases hc : inp.step.frame.captured with
    | false => simp
    | true =>
      cases hr : inp.running with
      | true => simp
      | false =>
        cases hs : SeenEnough e1 with
        | error f => simp
        | ok b =>
          cases b with
          | true => simp
          | false =>
            simp only [if_true, Bool.false_eq_true, if_false]
            rw [captureLoop_trace]
            simp

theorem captureLoop_statuses {F V : Type} (env : Env F V) (frames : List (LoopInput V)) :
    ∀ e : VicalibEngine F, ∃ k,
      publishedStatuses (captureLoop env e frames []).1 =
        List.replicate k CalibrationStatus.StatusCapturing := by
  induction frames with
  | nil => intro e; exact ⟨0, rfl⟩
  | cons inp rest ih =>
    intro e
    rcases captureLoop_cons env e inp rest with ⟨f, _, h⟩ | ⟨e1, log, hstep, h⟩
    · exact ⟨0, by rw [h]; rfl⟩
    · have hlog := (cameraStep_facts hstep).2.2.2.2.2.1
      rcases h with ⟨h, _⟩ | ⟨f, h⟩ | ⟨_, _, _, h⟩
      · exact ⟨1, by rw [h]; exact hlog⟩
      · exact ⟨1, by rw [h]; exact hlog⟩
      · obtain ⟨k, hk⟩ := ih e1
        refine ⟨k + 1, ?_⟩
        rw [h]
        simp only [publishedStatuses_append, hlog, hk]
        simp [List.replicate_succ]

/-- When control leaves the capture loop the task exists and the flags are
as before, up to the two static thresholds. -/
theorem captureLoop_left {F V : Type} (env : Env F V) (frames : List (LoopInput V)) :
    ∀ (e e1 : VicalibEngine F) (trace : List (Event V)),
      captureLoop env e frames [] = (trace, LoopEnd.left e1) →
      (∃ task, e1.vicalib_ = some task) ∧
        (∃ accel gyro, e1.flags =
          { e.flags with static_accel_threshold := accel, static_gyro_threshold := gyro }) := by
  induction frames with
  | nil => intro e e1 trace h; simp [captureLoop] at h
  | cons inp rest ih =>
    intro e e1 trace hleft
    rcases captureLoop_cons env e inp rest with ⟨f, _, h⟩ | ⟨e2, log, hstep, h⟩
    · rw [h] at hleft; cases hleft
    · obtain ⟨_, htask, ⟨accel, gyro, hflags⟩, _⟩ := cameraStep_facts hstep
      rcases h with ⟨h, _⟩ | ⟨f, h⟩ | ⟨_, _, _, h⟩
      · rw [h] at hleft
        injection hleft with h1 h2
        injection h2 with h2
        subst h2
        exact ⟨htask, accel, gyro, hflags⟩
      · rw [h] at hleft
        injection hleft with h1 h2
        cases h2
      · rw [h] at hleft
        injection hleft with h1 h2
        obtain ⟨htask1, accel1, gyro1, hflags1⟩ :=
          ih e2 e1 (captureLoop env e2 rest []).1 (Prod.ext rfl h2)
        exact ⟨htask1, accel1, gyro1, by rw [hflags1, hflags]⟩

theorem publishedStatuses_quietTrace {V : Type} (stats : CalibrationStats)
    (ps : List PollInput) :
    publishedStatuses (quietTrace stats ps : List (Event V)) =
      List.replicate ps.length stats.status := by
  induction ps with
  | nil => rfl
  | cons q rest ih => simp [quietTrace, publishedStatuses, ih, List.replicate_succ, pullProgress]

/-- The statuses `CalibrateAndDrawLoop` publishes: Optimizing, then one
resolved status. -/
theorem CalibrateAndDrawLoop_statuses {F V : Type} (e : VicalibEngine F) (s : OptScript) :
    ∃ b c t, (t = CalibrationStatus.StatusSuccess ∨ t = CalibrationStatus.StatusFailure) ∧
      publishedStatuses (CalibrateAndDrawLoop e s : Exec V).trace =
        List.replicate b CalibrationStatus.StatusOptimizing ++ List.replicate c t := by
  have hstart : ∀ g : Bool, ∀ r : Bool,
      publishedStatuses ((if r = false then [Event.Start g] else []) : List (Event V)) = [] := by
    intro g r
    cases r <;> rfl
  cases hv : e.vicalib_ with
  | none =>
    refine ⟨0, 0, CalibrationStatus.StatusSuccess, Or.inl rfl, ?_⟩
    rcases (CalibrateAndDrawLoop_not_polling (V := V) e s (Or.inl hv)).2.2 with h | h <;>
      rw [h] <;> rfl
  | some task =>
    cases hw : waitLoop s.wait with
    | false =>
      refine ⟨0, 0, CalibrationStatus.StatusSuccess, Or.inl rfl, ?_⟩
      rcases (CalibrateAndDrawLoop_not_polling (V := V) e s (Or.inr hw)).2.2 with h | h <;>
        rw [h] <;> rfl
    | true =>
      rw [CalibrateAndDrawLoop_polling e s task hv hw]
      rcases first_not_running s.poll with hall | ⟨pre, p, post, hpoll, hpre, hp⟩
      · refine ⟨s.poll.length, 0, CalibrationStatus.StatusSuccess, Or.inl rfl, ?_⟩
        rw [pollLoop_all_quiet e.flags _ false s.poll (fun q hq => Or.inr (hall q hq))]
        simp [publishedStatuses_append, hstart, publishedStatuses_quietTrace]
      · rw [hpoll, pollLoop_split e.flags _ pre post p hpre hp]
        have hres : resolvedStatus p.successful = CalibrationStatus.StatusSuccess ∨
            resolvedStatus p.successful = CalibrationStatus.StatusFailure := by
          unfold resolvedStatus
          cases p.successful <;> simp
        by_cases hx : e.flags.exit_vicalib_on_finish = true
        · refine ⟨pre.length + 1, 0, CalibrationStatus.StatusSuccess, Or.inl rfl, ?_⟩
          simp [hx, publishedStatuses_append, hstart, publishedStatuses_quietTrace,
            publishedStatuses, pullProgress, List.replicate_succ']
        · refine ⟨pre.length + 1, post.length, resolvedStatus p.successful, hres, ?_⟩
          simp [hx, publishedStatuses_append, hstart, publishedStatuses_quietTrace,
            publishedStatuses, pullProgress, List.replicate_succ']

/-- C4. In every execution of `Run` the statuses of the published
snapshots never regress: all Capturing snapshots come first, then all
Optimizing ones, then the terminal ones, which all carry one and the same
status, Success or Failure. -/
theorem C4_status_never_regresses {F V : Type} (env : Env F V) (e : VicalibEngine F)
    (s : RunScript V) :
    ∃ a b c t, (t = CalibrationStatus.StatusSuccess ∨ t = CalibrationStatus.StatusFailure) ∧
      publishedStatuses (Run env e s).trace =
        List.replicate a CalibrationStatus.StatusCapturing ++
          List.replicate b CalibrationStatus.StatusOptimizing ++ List.replicate c t := by
  obtain ⟨a, ha⟩ := captureLoop_statuses env s.frames e
  unfold Run
  rcases hcl : captureLoop env e s.frames [] with ⟨trace, r⟩
  rw [hcl] at ha
  cases r with
  | fault f => exact ⟨a, 0, 0, CalibrationStatus.StatusSuccess, Or.inl rfl, by simpa using ha⟩
  | pending e1 => exact ⟨a, 0, 0, CalibrationStatus.StatusSuccess, Or.inl rfl, by simpa using ha⟩
  | left e1 =>
    obtain ⟨b, c, t, ht, hx⟩ := CalibrateAndDrawLoop_statuses (V := V) e1 s.opt
    refine ⟨a, b, c, t, ht, ?_⟩
    simp only [publishedStatuses_append, hx]
    simp only at ha
    simp [ha, publishedStatuses]

/-! ## How Run ends -/

/-- How `CalibrateAndDrawLoop` ends: never by returning; by `exit(0)` when
the flag is set and some polling answer of `IsRunning()` is false. -/
theorem CalibrateAndDrawLoop_outcome {F V : Type} (e : VicalibEngine F) (s : OptScript) :
    (CalibrateAndDrawLoop e s : Exec V).outcome =
      match e.vicalib_ with
      | none => Outcome.fault Fault.undefined
      | some _ =>
        if waitLoop s.wait = true ∧ (∃ p ∈ s.poll, p.running = false) ∧
            e.flags.exit_vicalib_on_finish = true then Outcome.exited
        else Outcome.pending := by
  cases hv : e.vicalib_ with
  | none => simp [CalibrateAndDrawLoop, hv]
  | some task =>
    cases hw : waitLoop s.wait with
    | false => cases hr : s.running_at_entry <;> simp [CalibrateAndDrawLoop, hv, hw]
    | true =>
      rw [CalibrateAndDrawLoop_polling e s task hv hw]
      rcases first_not_running s.poll with hall | ⟨pre, p, post, hpoll, hpre, hp⟩
      · rw [pollLoop_all_quiet e.flags _ false s.poll (fun q hq => Or.inr (hall q hq))]
        have : ¬ ∃ p ∈ s.poll, p.running = false := by
          rintro ⟨p, hp, hf⟩
          rw [hall p hp] at hf
          cases hf
        simp [this]
      · have hex : ∃ p ∈ s.poll, p.running = false := ⟨p, by simp [hpoll], hp⟩
        rw [hpoll, pollLoop_split e.flags _ pre post p hpre hp]
        rw [← hpoll]
        by_cases hx : e.flags.exit_vicalib_on_finish = true
        · simp only [hx, if_true, true_and, and_true, if_pos hex]
        · simp only [hx, if_false, and_false, Bool.false_eq_true]

/-- The function `Run` never returns to its caller. -/
theorem Run_not_returned {F V : Type} (env : Env F V) (e : VicalibEngine F) (s : RunScript V) :
    (Run env e s).outcome ≠ Outcome.returned := by
  unfold Run
  rcases hcl : captureLoop env e s.frames [] with ⟨trace, r⟩
  cases r with
  | fault f => simp
  | pending e1 => simp
  | left e1 =>
    simp only [CalibrateAndDrawLoop_outcome]
    cases e1.vicalib_ with
    | none => simp
    | some task =>
      simp only
      split_ifs <;> simp

/-- `Run` after its capture loop has been left. -/
theorem Run_left {F V : Type} (env : Env F V) (e e1 : VicalibEngine F) (s : RunScript V)
    (trace : List (Event V)) (h : captureLoop env e s.frames [] = (trace, LoopEnd.left e1)) :
    Run env e s =
      ⟨trace ++ [Event.StopSensors] ++ (CalibrateAndDrawLoop e1 s.opt).trace,
        (CalibrateAndDrawLoop e1 s.opt : Exec V).outcome⟩ := by
  unfold Run
  rw [h]

/-- The capture loop calls neither `Finish` nor `WriteCameraModels`. -/
theorem captureLoop_no_output {F V : Type} (env : Env F V) (frames : List (LoopInput V)) :
    ∀ e : VicalibEngine F,
      (captureLoop env e frames []).1.countP isFinish = 0 ∧
        (captureLoop env e frames []).1.countP isWriteCameraModels = 0 := by
  induction frames with
  | nil => intro e; exact ⟨rfl, rfl⟩
  | cons inp rest ih =>
    intro e
    rcases captureLoop_cons env e inp rest with ⟨f, _, h⟩ | ⟨e1, log, hstep, h⟩
    · rw [h]; exact ⟨rfl, rfl⟩
    · obtain ⟨ea, imuEvs, e0, e2, adm, himu, _, hadm, _, hlog⟩ := cameraStep_ok hstep
      obtain ⟨_, himuEvs⟩ := deliverImu_shape _ himu
      have hlogF : log.events.countP isFinish = 0 ∧
          log.events.countP isWriteCameraModels = 0 := by
        subst hlog
        have h1 : imuEvs.countP isFinish = 0 := by
          rw [List.countP_eq_zero]
          intro ev hev
          obtain ⟨m, rfl⟩ := himuEvs ev hev
          simp [isFinish]
        have h2 : imuEvs.countP isWriteCameraModels = 0 := by
          rw [List.countP_eq_zero]
          intro ev hev
          obtain ⟨m, rfl⟩ := himuEvs ev hev
          simp [isWriteCameraModels]
        rcases (admission_shape hadm).1 with hadm1 | hadm1 <;>
          simp [hadm1, List.countP_append, List.countP_cons, h1, h2, isFinish,
            isWriteCameraModels]
      rcases h with ⟨h, _⟩ | ⟨f, h⟩ | ⟨_, _, _, h⟩
      · rw [h]; exact hlogF
      · rw [h]; exact hlogF
      · rw [h]
        simp [List.countP_append, hlogF.1, hlogF.2, (ih e1).1, (ih e1).2]

/-- C6. In the polling loop, at the first iteration in which `IsRunning()`
reports false, the engine resolves the status to Success if `IsSuccessful()`
is true and to Failure otherwise (every later snapshot carries it), and in
both cases it calls `Finish(output)` and writes the camera models right
after that iteration's snapshot; in every execution of
`CalibrateAndDrawLoop`, and of `Run`, `Finish` and `WriteCameraModels` are
called at most once. -/
theorem C6_resolution_once {F V : Type} (env : Env F V) (e : VicalibEngine F) (s : OptScript) :
    ((CalibrateAndDrawLoop e s : Exec V).trace.countP isFinish ≤ 1 ∧
      (CalibrateAndDrawLoop e s : Exec V).trace.countP isWriteCameraModels ≤ 1) ∧
    (∀ (e0 : VicalibEngine F) (frames : List (LoopInput V)),
      (Run env e0 ⟨frames, s⟩).trace.countP isFinish ≤ 1 ∧
        (Run env e0 ⟨frames, s⟩).trace.countP isWriteCameraModels ≤ 1) ∧
    ∀ (task : VicalibTask) (pre post : List PollInput) (p : PollInput),
      e.vicalib_ = some task → waitLoop s.wait = true → s.poll = pre ++ p :: post →
      (∀ q ∈ pre, q.running = true) → p.running = false →
      (CalibrateAndDrawLoop e s : Exec V).trace =
        (if !s.running_at_entry then [Event.Start e.flags.has_initial_guess] else []) ++
          quietTrace { e.stats_ with status := CalibrationStatus.StatusOptimizing } pre ++
          [Event.UpdateStats
              (pullProgress { e.stats_ with status := CalibrationStatus.StatusOptimizing } p),
            Event.Finish e.flags.output, Event.WriteCameraModels e.flags.output] ++
          (if e.flags.exit_vicalib_on_finish then [Event.Exit 0]
            else
              Event.Draw ::
                quietTrace
                  { e.stats_ with
                      status :=
                        if p.successful then CalibrationStatus.StatusSuccess
                        else CalibrationStatus.StatusFailure }
                  post) := by
  refine ⟨CalibrateAndDrawLoop_once e s, ?_, fun task pre post p =>
    CalibrateAndDrawLoop_split e s task pre post p⟩
  intro e0 frames
  have hcap := captureLoop_no_output env frames e0
  unfold Run
  rcases hcl : captureLoop env e0 frames [] with ⟨trace, r⟩
  rw [hcl] at hcap
  simp only at hcap
  cases r with
  | fault f => simp [hcap.1, hcap.2]
  | pending e1 => simp [hcap.1, hcap.2]
  | left e1 =>
    have honce := CalibrateAndDrawLoop_once (V := V) e1 s
    simp only [List.countP_append, hcap.1, hcap.2]
    simp only [List.countP_cons, List.countP_nil, isFinish, isWriteCameraModels]
    simpa using honce

/-- The failure scenario: the status resolves to Failure, and `Finish` and
`WriteCameraModels` are still called, once each. -/
theorem C6_resolution_once_witness :
    ∃ task, shakenEngine.vicalib_ = some task ∧ waitLoop failureScript.wait = true ∧
      shakenEngine.flags.exit_vicalib_on_finish = false ∧
      publishedStatuses (CalibrateAndDrawLoop shakenEngine failureScript :
          Exec (List Int)).trace =
        [CalibrationStatus.StatusOptimizing, CalibrationStatus.StatusOptimizing,
          CalibrationStatus.StatusFailure] ∧
      (CalibrateAndDrawLoop shakenEngine failureScript : Exec (List Int)).trace.filter
          (fun ev => isFinish ev || isWriteCameraModels ev) =
        [Event.Finish "cameras.xml", Event.WriteCameraModels "cameras.xml"] :=
  ⟨_, rfl, rfl, rfl,
    by
      rw [(C6_resolution_once specEnv shakenEngine failureScript).2.2 _
        [⟨⟨9, 100⟩, [⟨30, 100⟩], 3, true, false⟩] [⟨⟨4, 100⟩, [⟨20, 100⟩], 7, false, false⟩]
        ⟨⟨4, 100⟩, [⟨20, 100⟩], 7, false, false⟩ rfl rfl rfl (by decide) rfl]
      decide,
    by
      rw [(C6_resolution_once specEnv shakenEngine failureScript).2.2 _
        [⟨⟨9, 100⟩, [⟨30, 100⟩], 3, true, false⟩] [⟨⟨4, 100⟩, [⟨20, 100⟩], 7, false, false⟩]
        ⟨⟨4, 100⟩, [⟨20, 100⟩], 7, false, false⟩ rfl rfl rfl (by decide) rfl]
      decide⟩

/-- C7 (amended). `Run` never returns. Its polling loop ends only through
`exit(0)`, which needs `exit_vicalib_on_finish` set and a polling iteration
in which `IsRunning()` reports false. With the flag set that iteration exits
the process; with the flag not set the loop goes on after `Finish` and
`WriteCameraModels`, publishing the resolved status and drawing in every
further iteration. -/
theorem C7_polling_ends_only_by_exit {F V : Type} (env : Env F V) (e : VicalibEngine F)
    (s : RunScript V) :
    (Run env e s).outcome ≠ Outcome.returned ∧
    ((Run env e s).outcome = Outcome.exited →
      e.flags.exit_vicalib_on_finish = true ∧ ∃ p ∈ s.opt.poll, p.running = false) ∧
    ∀ (trace : List (Event V)) (e1 : VicalibEngine F) (pre post : List PollInput)
      (p : PollInput),
      captureLoop env e s.frames [] = (trace, LoopEnd.left e1) → waitLoop s.opt.wait = true →
      s.opt.poll = pre ++ p :: post → (∀ q ∈ pre, q.running = true) → p.running = false →
      if e.flags.exit_vicalib_on_finish = true then (Run env e s).outcome = Outcome.exited
      else
        (Run env e s).outcome = Outcome.pending ∧
          ∃ head, (Run env e s).trace =
            head ++
              [Event.Finish e.flags.output, Event.WriteCameraModels e.flags.output,
                Event.Draw] ++
              quietTrace
                { e1.stats_ with
                    status :=
                      if p.successful then CalibrationStatus.StatusSuccess
                      else CalibrationStatus.StatusFailure }
                post := by
  refine ⟨Run_not_returned env e s, ?_, ?_⟩
  · intro hex
    unfold Run at hex
    rcases hcl : captureLoop env e s.frames [] with ⟨trace, r⟩
    rw [hcl] at hex
    cases r with
    | fault f => simp at hex
    | pending e1 => simp at hex
    | left e1 =>
      obtain ⟨_, accel, gyro, hflags⟩ := captureLoop_left env s.frames e e1 trace hcl
      simp only [CalibrateAndDrawLoop_outcome] at hex
      cases hv : e1.vicalib_ with
      | none => simp [hv] at hex
      | some task =>
        simp only [hv] at hex
        split_ifs at hex with hc
        obtain ⟨_, hp, hx⟩ := hc
        rw [hflags] at hx
        exact ⟨hx, hp⟩
  · intro trace e1 pre post p hcl hw hpoll hpre hp
    obtain ⟨⟨task, hv⟩, accel, gyro, hflags⟩ := captureLoop_left env s.frames e e1 trace hcl
    have hexit : e1.flags.exit_vicalib_on_finish = e.flags.exit_vicalib_on_finish := by
      rw [hflags]
    have hout : e1.flags.output = e.flags.output := by rw [hflags]
    rw [Run_left env e e1 s trace hcl, CalibrateAndDrawLoop_polling e1 s.opt task hv hw, hpoll,
      pollLoop_split e1.flags _ pre post p hpre hp, hexit, hout]
    by_cases hx : e.flags.exit_vicalib_on_finish = true
    · simp [hx]
    · simp only [hx, if_false, Bool.false_eq_true, true_and]
      refine ⟨trace ++ [Event.StopSensors] ++
        (if !s.opt.running_at_entry then [Event.Start e1.flags.has_initial_guess] else []) ++
        quietTrace { e1.stats_ with status := CalibrationStatus.StatusOptimizing } pre ++
        [Event.UpdateStats
          (pullProgress { e1.stats_ with status := CalibrationStatus.StatusOptimizing } p)], ?_⟩
      simp [resolvedStatus]

/-- C7 (as stated) fails. With `exit_vicalib_on_finish` not set, the run
below reaches the iteration in which the optimizer has stopped, resolves the
status to Failure and writes the output, and then polls again: a Failure
snapshot is published after the output was written and the loop asks for
the next answer. Whatever further answers follow, `Run` does not return. -/
theorem C7_counterexample :
    oneCameraFlags.exit_vicalib_on_finish = false ∧
      (Run specEnv (freshEngine oneCameraFlags) stoppedRun).outcome = Outcome.pending ∧
      publishedStatuses (Run specEnv (freshEngine oneCameraFlags) stoppedRun).trace =
        [CalibrationStatus.StatusCapturing, CalibrationStatus.StatusOptimizing,
          CalibrationStatus.StatusOptimizing, CalibrationStatus.StatusFailure] ∧
      (Run specEnv (freshEngine oneCameraFlags) stoppedRun).trace.countP isWriteCameraModels
        = 1 ∧
      ¬ ∃ more : List PollInput,
        (Run specEnv (freshEngine oneCameraFlags)
          { stoppedRun with opt := { failureScript with poll := failurePoll ++ more } }).outcome
          = Outcome.returned :=
  ⟨by decide, by decide, by decide, by decide, fun ⟨_, h⟩ => Run_not_returned _ _ _ h⟩

/-- The failure scenario without the exit flag: after the output has been
written the run is still polling. -/
theorem C7_polling_ends_only_by_exit_witness :
    ∃ trace e1,
      captureLoop specEnv (freshEngine oneCameraFlags) stoppedRun.frames [] =
        (trace, LoopEnd.left e1) ∧
      (freshEngine oneCameraFlags).flags.exit_vicalib_on_finish = false ∧
      (Run specEnv (freshEngine oneCameraFlags) stoppedRun).outcome = Outcome.pending :=
  ⟨_, _, rfl, rfl, by
    have h := (C7_polling_ends_only_by_exit specEnv (freshEngine oneCameraFlags) stoppedRun).2.2
      _ _ [⟨⟨9, 100⟩, [⟨30, 100⟩], 3, true, false⟩] [⟨⟨4, 100⟩, [⟨20, 100⟩], 7, false, false⟩]
      ⟨⟨4, 100⟩, [⟨20, 100⟩], 7, false, false⟩ rfl rfl rfl (by decide) rfl
    rw [if_neg (by decide)] at h
    exact h.1⟩

theorem filter_isCapture_quietTrace {V : Type} (stats : CalibrationStats) (ps : List PollInput) :
    (quietTrace stats ps : List (Event V)).filter isCapture = [] := by
  induction ps with
  | nil => rfl
  | cons q rest ih => simpa [quietTrace, isCapture] using ih

/-- The function `CalibrateAndDrawLoop` never calls `Capture`. -/
theorem CalibrateAndDrawLoop_no_capture {F V : Type} (e : VicalibEngine F) (s : OptScript) :
    (CalibrateAndDrawLoop e s : Exec V).trace.filter isCapture = [] := by
  cases hv : e.vicalib_ with
  | none =>
    rcases (CalibrateAndDrawLoop_not_polling (V := V) e s (Or.inl hv)).2.2 with h | h <;>
      rw [h] <;> rfl
  | some task =>
    cases hw : waitLoop s.wait with
    | false =>
      rcases (CalibrateAndDrawLoop_not_polling (V := V) e s (Or.inr hw)).2.2 with h | h <;>
        rw [h] <;> rfl
    | true =>
      rw [CalibrateAndDrawLoop_polling e s task hv hw]
      rcases first_not_running s.poll with hall | ⟨pre, p, post, hpoll, hpre, hp⟩
      · rw [pollLoop_all_quiet e.flags _ false s.poll (fun q hq => Or.inr (hall q hq))]
        cases hr : s.running_at_entry <;> simp [filter_isCapture_quietTrace, isCapture]
      · rw [hpoll, pollLoop_split e.flags _ pre post p hpre hp]
        cases hr : s.running_at_entry <;> cases hx : e.flags.exit_vicalib_on_finish <;>
          simp [filter_isCapture_quietTrace, isCapture]

/-- With the task created, `CalibrateAndDrawLoop` calls `Start` first when
`IsRunning()` is false at entry. -/
theorem CalibrateAndDrawLoop_start {F V : Type} (e : VicalibEngine F) (s : OptScript)
    (task : VicalibTask) (htask : e.vicalib_ = some task) (hr : s.running_at_entry = false) :
    ∃ tail, (CalibrateAndDrawLoop e s : Exec V).trace =
      Event.Start e.flags.has_initial_guess :: tail := by
  cases hw : waitLoop s.wait with
  | false => exact ⟨[], by simp [CalibrateAndDrawLoop, htask, hw, hr]⟩
  | true =>
    rw [CalibrateAndDrawLoop_polling e s task htask hw]
    exact ⟨(pollLoop e.flags { e.stats_ with status := CalibrationStatus.StatusOptimizing }
      false s.poll []).trace, by simp [hr]⟩

/-- C2 (amended). A capture failure ends the capture phase. When the
`Capture` call of a capture-loop iteration returns false, `CameraLoop` still
publishes a Capturing snapshot and returns false, the loop of `Run` is left
at once whatever frames would follow, and `Run` calls the stop-sensors
callback and enters `CalibrateAndDrawLoop`, which calls `Start` when the
task is not running; no further `Capture` call is made. -/
theorem C2_capture_failure_ends_capture {F V : Type} (env : Env F V) (e e1 : VicalibEngine F)
    (inp : LoopInput V) (rest : List (LoopInput V)) (opt : OptScript) (log : StepLog V)
    (trace : List (Event V))
    (hstep : cameraStep env e inp.step = Except.ok (e1, log))
    (hcap : inp.step.frame.captured = false) :
    log.captured = false ∧
      captureLoop env e (inp :: rest) trace = (trace ++ log.events, LoopEnd.left e1) ∧
      log.events.filter isCapture = [Event.Capture false] ∧
      publishedStatuses log.events = [CalibrationStatus.StatusCapturing] ∧
      Run env e ⟨inp :: rest, opt⟩ =
        ⟨log.events ++ [Event.StopSensors] ++ (CalibrateAndDrawLoop e1 opt).trace,
          (CalibrateAndDrawLoop e1 opt : Exec V).outcome⟩ ∧
      (Run env e ⟨inp :: rest, opt⟩).trace.filter isCapture = [Event.Capture false] ∧
      (opt.running_at_entry = false →
        ∃ tail, (Run env e ⟨inp :: rest, opt⟩).trace =
          log.events ++ Event.StopSensors :: Event.Start e1.flags.has_initial_guess :: tail) := by
  obtain ⟨hlc, ⟨task, htask⟩, _, _, _, hstat, hfilt⟩ := cameraStep_facts hstep
  rw [hcap] at hlc hfilt
  have hloop : ∀ tr, captureLoop env e (inp :: rest) tr = (tr ++ log.events, LoopEnd.left e1) := by
    intro tr
    simp [captureLoop, hstep, hlc]
  have hrun := Run_left env e e1 ⟨inp :: rest, opt⟩ log.events (by simpa using hloop [])
  refine ⟨hlc, hloop trace, hfilt, hstat, hrun, ?_, ?_⟩
  · rw [hrun]
    simp [List.filter_append, hfilt, CalibrateAndDrawLoop_no_capture, isCapture]
  · intro hr
    obtain ⟨tail, htail⟩ := CalibrateAndDrawLoop_start (V := V) e1 opt task htask hr
    exact ⟨tail, by rw [hrun, htail]; simp⟩

/-- A failed capture followed by a scripted good frame: only the failed
`Capture` call is made. -/
theorem C2_capture_failure_ends_capture_witness :
    ∃ e1 log,
      cameraStep specEnv shakenEngine ⟨[], ⟨false, []⟩⟩ = Except.ok (e1, log) ∧
      (Run specEnv shakenEngine
          ⟨[⟨⟨[], ⟨false, []⟩⟩, false⟩, ⟨⟨[], ⟨true, [true]⟩⟩, false⟩],
            failureScript⟩).trace.filter isCapture = [Event.Capture false] :=
  ⟨_, _, rfl,
    (C2_capture_failure_ends_capture specEnv shakenEngine _ ⟨⟨[], ⟨false, []⟩⟩, false⟩
      [⟨⟨[], ⟨true, [true]⟩⟩, false⟩] failureScript _ [] rfl rfl).2.2.2.2.2.1⟩

/-- C2 (as stated) fails. In the run below the second `Capture` call
returns false while the task is not running and the frame limit is
unlimited; `Run` does not retry: the third scripted frame is never
captured, and the stop-sensors callback and `Start` are called. -/
theorem C2_counterexample :
    (transientFailureRun.frames.map (fun i => i.running)) = [false, false, false] ∧
      oneCameraFlags.num_vicalib_frames = kCalibrateAllPossibleFrames ∧
      (Run specEnv (freshEngine oneCameraFlags) transientFailureRun).trace.filter isCapture =
        [Event.Capture true, Event.Capture false] ∧
      (Run specEnv (freshEngine oneCameraFlags) transientFailureRun).trace.filter
          (fun ev => decide (ev = Event.StopSensors ∨ ev = Event.Start false)) =
        [Event.StopSensors, Event.Start false] := by
  decide

/-! ## Per-stream counts -/

theorem incrementProcessed_ok {counts counts1 : List Int} {ii : Nat}
    (h : incrementProcessed counts ii = Except.ok counts1) (j : Nat) :
    counts1.getD j 0 = counts.getD j 0 + (if j = ii then 1 else 0) ∧
      counts.getD ii 0 < INT_MAX ∧ ii < counts.length := by
  unfold incrementProcessed at h
  cases hc : counts.get? ii with
  | none => rw [hc] at h; cases h
  | some c =>
    rw [hc] at h
    simp only at h
    split_ifs at h with hlt
    injection h with h
    subst h
    have hii : ii < counts.length := by
      by_contra hn
      rw [List.get?_eq_none.mpr (by omega)] at hc
      cases hc
    have hget : counts.getD ii 0 = c := by
      simp [List.getD_eq_getElem?_getD, ← List.get?_eq_getElem?, hc]
    refine ⟨?_, by rw [hget]; exact hlt, hii⟩
    by_cases hj : j = ii
    · subst hj
      simp [List.getD_eq_getElem?_getD, List.getElem?_set, hii, hget] at hget ⊢
      omega
    · simp [List.getD_eq_getElem?_getD, List.getElem?_set, hj, Ne.symm hj]

/-- The counting loop adds one to the count of every index whose entry of
`valid_frames` is true, and touches nothing else. -/
theorem countValidFrames_ok (valid : List Bool) :
    ∀ (ii : Nat) (counts counts1 : List Int),
      countValidFrames valid ii counts = Except.ok counts1 →
      ∀ j, counts1.getD j 0 =
        counts.getD j 0 + (if ii ≤ j ∧ valid.getD (j - ii) false = true then 1 else 0) := by
  induction valid with
  | nil =>
    intro ii counts counts1 h j
    simp only [countValidFrames] at h
    injection h with h
    subst h
    simp
  | cons v rest ih =>
    intro ii counts counts1 h j
    simp only [countValidFrames] at h
    cases v with
    | false =>
      simp only [Bool.false_eq_true, if_false] at h
      rw [ih (ii + 1) counts counts1 h j]
      by_cases hj : ii + 1 ≤ j
      · have : j - ii = (j - (ii + 1)) + 1 := by omega
        rw [this, List.getD_cons_succ]
        simp [hj, show ii ≤ j by omega]
      · by_cases hj2 : ii ≤ j
        · have : j - ii = 0 := by omega
          simp [hj, this]
        · simp [hj, hj2]
    | true =>
      simp only [if_true] at h
      cases hinc : incrementProcessed counts ii with
      | error f => rw [hinc] at h; cases h
      | ok counts2 =>
        rw [hinc] at h
        simp only at h
        rw [ih (ii + 1) counts2 counts1 h j, (incrementProcessed_ok hinc j).1]
        by_cases hj : ii + 1 ≤ j
        · have : j - ii = (j - (ii + 1)) + 1 := by omega
          rw [this, List.getD_cons_succ]
          simp [hj, show ii ≤ j by omega, show j ≠ ii by omega]
        · by_cases hj2 : j = ii
          · subst hj2
            simp
          · simp [hj, hj2, show ¬ ii ≤ j by omega]

/-- The admission block either leaves the counts alone and calls nothing,
or calls `AddSuperFrame` and runs the counting loop on its result. -/
theorem admission_counts {F V : Type} {env : Env F V} {e e2 : VicalibEngine F}
    {inp : FrameInput} {adm : List (Event V)} (h : admission env e inp = Except.ok (e2, adm)) :
    (adm = [] ∧ e2.stats_.num_frames_processed = e.stats_.num_frames_processed) ∨
      (adm = [Event.AddSuperFrame inp.valid_frames] ∧
        countValidFrames inp.valid_frames 0 e.stats_.num_frames_processed =
          Except.ok e2.stats_.num_frames_processed) := by
  unfold admission at h
  split_ifs at h
  · split at h
    · cases h
    · rename_i counts hc
      injection h with h
      injection h with h1 h2
      subst h1 h2
      exact Or.inr ⟨rfl, hc⟩
  · injection h with h
    injection h with h1 h2
    subst h1 h2
    exact Or.inl ⟨rfl, rfl⟩
  · injection h with h
    injection h with h1 h2
    subst h1 h2
    exact Or.inl ⟨rfl, rfl⟩

theorem any_AddIMU {V : Type} (evs : List (Event V)) (f : Event V → Bool)
    (hf : ∀ m, f (Event.AddIMU m) = false)
    (h : ∀ ev ∈ evs, ∃ m, ev = Event.AddIMU m) : evs.any f = false := by
  induction evs with
  | nil => rfl
  | cons ev rest ih =>
    obtain ⟨m, rfl⟩ := h ev (List.mem_cons_self _ _)
    simp only [List.any_cons, hf, Bool.false_or]
    exact ih (fun ev hev => h ev (List.mem_cons_of_mem _ hev))

/-- One completed step raises the count of stream `i` by one exactly when
the step admitted its frame with a usable detection on stream `i`. -/
theorem cameraStep_count {F V : Type} {env : Env F V} {e e1 : VicalibEngine F}
    {inp : StepInput V} {log : StepLog V} (h : cameraStep env e inp = Except.ok (e1, log))
    (i : Nat) :
    e1.stats_.num_frames_processed.getD i 0 =
      e.stats_.num_frames_processed.getD i 0 + (if log.admittedValid i = true then 1 else 0) ∧
    (log.admittedValid i = true → log.admitted = true) := by
  obtain ⟨ea, imuEvs, e0, e2, adm, himu, hens, hadm, he1, hlog⟩ := cameraStep_ok h
  obtain ⟨hea, himuEvs⟩ := deliverImu_shape _ himu
  obtain ⟨task, accel, gyro, he0⟩ := ensureTask_ok hens
  have hstats : e0.stats_ = e.stats_ := by rw [he0, hea]
  have h1 : e1.stats_.num_frames_processed = e2.stats_.num_frames_processed := by rw [he1]
  subst hlog
  rw [h1]
  simp only [StepLog.admittedValid, StepLog.admitted, List.any_append]
  rw [any_AddIMU imuEvs _ (fun _ => rfl) himuEvs, any_AddIMU imuEvs _ (fun _ => rfl) himuEvs]
  rcases admission_counts hadm with ⟨hnil, hsame⟩ | ⟨hcall, hcount⟩
  · subst hnil
    simp [hsame, hstats, isAddSuperFrame]
  · subst hcall
    have := countValidFrames_ok inp.frame.valid_frames 0 _ _ hcount i
    rw [this, hstats]
    simp [isAddSuperFrame]

/-- A sequence of steps that completes, split after its first step. -/
theorem CameraLoops_cons_ok {F V : Type} {env : Env F V} {e e1 : VicalibEngine F}
    {inp : StepInput V} {rest : List (StepInput V)} {logs : List (StepLog V)}
    (h : CameraLoops env e (inp :: rest) = (logs, Except.ok e1)) :
    ∃ emid log logs1, cameraStep env e inp = Except.ok (emid, log) ∧
      CameraLoops env emid rest = (logs1, Except.ok e1) ∧ logs = log :: logs1 := by
  simp only [CameraLoops] at h
  cases hstep : cameraStep env e inp with
  | error f => rw [hstep] at h; simp at h
  | ok x =>
    obtain ⟨emid, log⟩ := x
    rw [hstep] at h
    simp only [Prod.mk.injEq] at h
    exact ⟨emid, log, (CameraLoops env emid rest).1, rfl, Prod.ext rfl h.2, h.1.symm⟩

/-- A sequence of steps that completes, split anywhere. -/
theorem CameraLoops_append_ok {F V : Type} {env : Env F V} (s1 s2 : List (StepInput V)) :
    ∀ {e e1 : VicalibEngine F} {logs : List (StepLog V)},
      CameraLoops env e (s1 ++ s2) = (logs, Except.ok e1) →
      ∃ emid logs1 logs2, CameraLoops env e s1 = (logs1, Except.ok emid) ∧
        CameraLoops env emid s2 = (logs2, Except.ok e1) ∧ logs = logs1 ++ logs2 := by
  induction s1 with
  | nil => intro e e1 logs h; exact ⟨e, [], logs, rfl, h, rfl⟩
  | cons inp rest ih =>
    intro e e1 logs h
    obtain ⟨ea, log, logsa, hstep, hrest, hlogs⟩ := CameraLoops_cons_ok h
    obtain ⟨emid, logs1, logs2, h1, h2, h3⟩ := ih hrest
    refine ⟨emid, log :: logs1, logs2, ?_, h2, by rw [hlogs, h3]; rfl⟩
    simp only [CameraLoops, hstep, h1]

/-- Over a sequence of steps that completes, the count of stream `i` grows
by the number of steps that admitted a frame usable on stream `i`. -/
theorem CameraLoops_counts {F V : Type} {env : Env F V} (steps : List (StepInput V)) :
    ∀ {e e1 : VicalibEngine F} {logs : List (StepLog V)},
      CameraLoops env e steps = (logs, Except.ok e1) → ∀ i : Nat,
      e1.stats_.num_frames_processed.getD i 0 =
        e.stats_.num_frames_processed.getD i 0 + (logs.countP (StepLog.admittedValid i) : Nat) := by
  induction steps with
  | nil =>
    intro e e1 logs h i
    simp only [CameraLoops, Prod.mk.injEq] at h
    obtain ⟨h1, h2⟩ := h
    injection h2 with h2
    subst h1 h2
    simp
  | cons inp rest ih =>
    intro e e1 logs h i
    obtain ⟨emid, log, logs1, hstep, hrest, hlogs⟩ := CameraLoops_cons_ok h
    rw [ih hrest i, (cameraStep_count hstep i).1, hlogs, List.countP_cons]
    split_ifs <;> push_cast <;> ring

theorem countP_admittedValid_le {V : Type} (logs : List (StepLog V)) (i : Nat)
    (h : ∀ l ∈ logs, l.admittedValid i = true → l.admitted = true) :
    logs.countP (StepLog.admittedValid i) ≤ logs.countP StepLog.admitted := by
  induction logs with
  | nil => simp
  | cons l rest ih =>
    have hrest := ih (fun l hl => h l (List.mem_cons_of_mem _ hl))
    have hl := h l (List.mem_cons_self _ _)
    simp only [List.countP_cons]
    cases hv : l.admittedValid i with
    | false => simp only [Bool.false_eq_true, if_false]; omega
    | true => simp only [hl hv, if_true]; omega

theorem CameraLoops_admittedValid {F V : Type} {env : Env F V} (steps : List (StepInput V)) :
    ∀ {e e1 : VicalibEngine F} {logs : List (StepLog V)},
      CameraLoops env e steps = (logs, Except.ok e1) → ∀ i : Nat,
      ∀ l ∈ logs, l.admittedValid i = true → l.admitted = true := by
  induction steps with
  | nil =>
    intro e e1 logs h i l hl
    simp only [CameraLoops, Prod.mk.injEq] at h
    rw [← h.1] at hl
    cases hl
  | cons inp rest ih =>
    intro e e1 logs h i l hl
    obtain ⟨emid, log, logs1, hstep, hrest, hlogs⟩ := CameraLoops_cons_ok h
    rw [hlogs] at hl
    rcases List.mem_cons.mp hl with rfl | hl
    · exact (cameraStep_count hstep i).2
    · exact ih hrest i l hl

/-! ## The skip counter -/

/-- What one completed step does to the skip counter. -/
theorem cameraStep_skip {F V : Type} {env : Env F V} {e e1 : VicalibEngine F}
    {inp : StepInput V} {log : StepLog V} (h : cameraStep env e inp = Except.ok (e1, log)) :
    e1.flags.frame_skip = e.flags.frame_skip ∧
      log.evaluated = decide (e.frames_skipped_ ≥ e.flags.frame_skip) ∧
      (log.admitted = true → log.evaluated = true ∧ e1.frames_skipped_ = 0) ∧
      (log.evaluated = true → log.admitted = false → e1.frames_skipped_ = e.frames_skipped_) ∧
      (log.evaluated = false →
        log.admitted = false ∧ e1.frames_skipped_ = e.frames_skipped_ + 1) := by
  obtain ⟨ea, imuEvs, e0, e2, adm, himu, hens, hadm, he1, hlog⟩ := cameraStep_ok h
  obtain ⟨hea, himuEvs⟩ := deliverImu_shape _ himu
  obtain ⟨task, accel, gyro, he0⟩ := ensureTask_ok hens
  have hfs0 : e0.frames_skipped_ = e.frames_skipped_ := by rw [he0, hea]
  have hskip0 : e0.flags.frame_skip = e.flags.frame_skip := by rw [he0, hea]
  have hfs1 : e1.frames_skipped_ = e2.frames_skipped_ := by rw [he1]
  have hfl1 : e1.flags.frame_skip = e.flags.frame_skip := by
    rw [he1, (admission_shape hadm).2, he0, hea]
  have hreach : skipReached e0 = decide (e.frames_skipped_ ≥ e.flags.frame_skip) := by
    unfold skipReached
    rw [hfs0, hskip0]
  have hea_reach : skipReached ea = decide (e.frames_skipped_ ≥ e.flags.frame_skip) := by
    unfold skipReached
    rw [hea]
  have hadmitted : log.admitted = adm.any isAddSuperFrame := by
    subst hlog
    simp only [StepLog.admitted, List.any_append]
    rw [any_AddIMU imuEvs _ (fun _ => rfl) himuEvs]
    simp [isAddSuperFrame]
  have hev : log.evaluated = decide (e.frames_skipped_ ≥ e.flags.frame_skip) := by
    subst hlog
    exact hea_reach
  rw [hadmitted, hev, hfs1, ← hreach]
  refine ⟨hfl1, rfl, ?_, ?_, ?_⟩
  · intro hany
    have hcond := (admission_ok hadm).1.mp hany
    refine ⟨hcond.1, ?_⟩
    unfold admission at hadm
    rw [if_pos hcond.1, if_pos (by simp [hcond.2.1, hcond.2.2])] at hadm
    split at hadm
    · cases hadm
    · injection hadm with hadm
      injection hadm with h1 h2
      subst h1
      rfl
  · intro hr hany
    unfold admission at hadm
    rw [if_pos hr] at hadm
    split_ifs at hadm
    · split at hadm
      · cases hadm
      · injection hadm with hadm
        injection hadm with h1 h2
        subst h2
        simp [isAddSuperFrame] at hany
    · injection hadm with hadm
      injection hadm with h1 h2
      subst h1
      exact hfs0
  · intro hr
    unfold admission at hadm
    rw [if_neg (by simp [hr])] at hadm
    injection hadm with hadm
    injection hadm with h1 h2
    subst h1 h2
    exact ⟨rfl, by simp [hfs0]⟩

/-- While the skip counter is `c` steps below `frame_skip`, the next `c`
steps admit nothing. -/
theorem CameraLoops_cooldown {F V : Type} {env : Env F V} (N : Nat)
    (steps : List (StepInput V)) :
    ∀ {e e1 : VicalibEngine F} {logs : List (StepLog V)} (c : Nat),
      e.flags.frame_skip = N → CameraLoops env e steps = (logs, Except.ok e1) →
      e.frames_skipped_ + c ≤ N → (logs.take c).countP StepLog.admitted = 0 := by
  induction steps with
  | nil =>
    intro e e1 logs c _ h _
    simp only [CameraLoops, Prod.mk.injEq] at h
    rw [← h.1]
    simp
  | cons inp rest ih =>
    intro e e1 logs c hN h hc
    obtain ⟨emid, log, logs1, hstep, hrest, hlogs⟩ := CameraLoops_cons_ok h
    subst hlogs
    cases c with
    | zero => simp
    | succ c =>
      obtain ⟨hfl, hev, _, _, hskip⟩ := cameraStep_skip hstep
      have hlt : ¬ (e.frames_skipped_ ≥ e.flags.frame_skip) := by
        rw [hN]
        push_cast at hc
        omega
      have hev' : log.evaluated = false := by rw [hev]; simp [hlt]
      obtain ⟨hna, hfs⟩ := hskip hev'
      have := ih c (by rw [hfl, hN]) hrest (by rw [hfs]; push_cast at hc ⊢; omega)
      simp [List.take_succ_cons, List.countP_cons, hna, this]

/-- Among the first `frame_skip + 1` steps of a sequence at most one admits
its frame. -/
theorem CameraLoops_window {F V : Type} {env : Env F V} (N : Nat)
    (steps : List (StepInput V)) :
    ∀ {e e1 : VicalibEngine F} {logs : List (StepLog V)} (k w : Nat),
      e.flags.frame_skip = N → CameraLoops env e steps = (logs, Except.ok e1) →
      w ≤ N + 1 → ((logs.drop k).take w).countP StepLog.admitted ≤ 1 := by
  induction steps with
  | nil =>
    intro e e1 logs k w _ h _
    simp only [CameraLoops, Prod.mk.injEq] at h
    rw [← h.1]
    simp
  | cons inp rest ih =>
    intro e e1 logs k w hN h hw
    obtain ⟨emid, log, logs1, hstep, hrest, hlogs⟩ := CameraLoops_cons_ok h
    subst hlogs
    obtain ⟨hfl, hev, hadm, _, _⟩ := cameraStep_skip hstep
    cases k with
    | succ k => simpa using ih k w (by rw [hfl, hN]) hrest hw
    | zero =>
      cases w with
      | zero => simp
      | succ w =>
        simp only [List.drop_zero, List.take_succ_cons, List.countP_cons]
        cases ha : log.admitted with
        | false =>
          have := ih 0 w (by rw [hfl, hN]) hrest (by omega)
          simp only [List.drop_zero] at this
          simp only [Bool.false_eq_true, if_false]
          omega
        | true =>
          have hz := (hadm ha).2
          have := CameraLoops_cooldown N rest w (by rw [hfl, hN]) hrest
            (by rw [hz]; omega)
          simp [this]

/-- A step that reaches the admission test and rejects its frame is
followed by a step that reaches it again. -/
theorem CameraLoops_reject_retry {F V : Type} {env : Env F V} (steps : List (StepInput V)) :
    ∀ {e e1 : VicalibEngine F} {logs : List (StepLog V)} (k : Nat) (l l1 : StepLog V),
      CameraLoops env e steps = (logs, Except.ok e1) →
      logs[k]? = some l → logs[k + 1]? = some l1 →
      l.evaluated = true → l.admitted = false → l1.evaluated = true := by
  induction steps with
  | nil =>
    intro e e1 logs k l l1 h hk
    simp only [CameraLoops, Prod.mk.injEq] at h
    rw [← h.1] at hk
    simp at hk
  | cons inp rest ih =>
    intro e e1 logs k l l1 h hk hk1 hev hrej
    obtain ⟨emid, log, logs1, hstep, hrest, hlogs⟩ := CameraLoops_cons_ok h
    subst hlogs
    cases k with
    | succ k =>
      simp only [List.getElem?_cons_succ] at hk hk1
      exact ih k l l1 hrest hk hk1 hev hrej
    | zero =>
      simp only [List.getElem?_cons_zero, Option.some.injEq, zero_add,
        List.getElem?_cons_succ] at hk hk1
      subst hk
      obtain ⟨hfl, hev0, _, hsame, _⟩ := cameraStep_skip hstep
      cases rest with
      | nil =>
        simp only [CameraLoops, Prod.mk.injEq] at hrest
        rw [← hrest.1] at hk1
        simp at hk1
      | cons inp1 rest1 =>
        obtain ⟨emid1, log1, logs2, hstep1, _, hlogs1⟩ := CameraLoops_cons_ok hrest
        subst hlogs1
        simp only [List.getElem?_cons_zero, Option.some.injEq] at hk1
        subst hk1
        obtain ⟨_, hev1, _⟩ := cameraStep_skip hstep1
        rw [hev1, hfl, hsame hev hrej]
        rw [hev0] at hev
        exact hev

/-- C8 (amended). With `frame_skip = N >= 0`, in every sequence of
`CameraLoop` steps at most one of any `N + 1` consecutive steps admits its
frame. A step that reaches the admission test and rejects its frame
(capture failed, or the rig is not stable) leaves the skip counter as it
is, so the next step reaches the admission test again. -/
theorem C8_at_most_one_admitted {F V : Type} (env : Env F V) (e e1 : VicalibEngine F)
    (steps : List (StepInput V)) (logs : List (StepLog V)) (N : Nat)
    (hN : e.flags.frame_skip = N)
    (hrun : CameraLoops env e steps = (logs, Except.ok e1)) :
    (∀ k, ((logs.drop k).take (N + 1)).countP StepLog.admitted ≤ 1) ∧
      ∀ (k : Nat) (l l1 : StepLog V), logs[k]? = some l → logs[k + 1]? = some l1 →
        l.evaluated = true → l.admitted = false → l1.evaluated = true :=
  ⟨fun k => CameraLoops_window N steps k (N + 1) hN hrun (le_refl _),
    fun k l l1 => CameraLoops_reject_retry steps k l l1 hrun⟩

/-- Three captured frames with `frame_skip = 1`. -/
theorem C8_at_most_one_admitted_witness :
    ∃ logs e1,
      (freshEngine skipOneFlags).flags.frame_skip = (1 : Nat) ∧
      CameraLoops specEnv (freshEngine skipOneFlags) threeCaptures = (logs, Except.ok e1) ∧
      ∀ k, ((logs.drop k).take (1 + 1)).countP StepLog.admitted ≤ 1 :=
  ⟨_, _, rfl, rfl,
    (C8_at_most_one_admitted specEnv (freshEngine skipOneFlags) _ threeCaptures _ 1 rfl rfl).1⟩

/-- C8 (as stated) fails. With `frame_skip = 1` and the stability gate on,
three frames are captured while the filters are not stable: the second and
the third frame, two consecutive ones, both reach the admission test, and
none of the three is admitted. -/
theorem C8_counterexample :
    (freshEngine skipOneFlags).flags.frame_skip = 1 ∧
      (CameraLoops specEnv (freshEngine skipOneFlags) threeCaptures).1.map
          (fun l => (l.captured, l.evaluated, l.admitted)) =
        [(true, false, false), (true, true, false), (true, true, false)] := by
  decide

/-! ## The frame limit -/

/-- With the task created, well-formed IMU messages are all handled. -/
theorem deliverImu_total {F V : Type} (env : Env F V) (ms : List (ImuMsg V)) :
    ∀ (e : VicalibEngine F) (task : VicalibTask), e.vicalib_ = some task →
      (∀ m ∈ ms, m.accel ≠ none ∧ m.gyro ≠ none) →
      ∃ e1 evs, deliverImu env e ms = Except.ok (e1, evs) := by
  induction ms with
  | nil => intro e task _ _; exact ⟨e, [], rfl⟩
  | cons m rest ih =>
    intro e task htask hwf
    simp only [deliverImu]
    by_cases hreg : e.imu_registered = true
    · rw [if_pos hreg]
      obtain ⟨ha, hg⟩ := hwf m (List.mem_cons_self _ _)
      obtain ⟨accel, haccel⟩ := Option.ne_none_iff_exists'.mp ha
      obtain ⟨gyro, hgyro⟩ := Option.ne_none_iff_exists'.mp hg
      have hh : ImuHandler env e m =
          Except.ok ({ e with
            accel_filter_ := env.Add e.accel_filter_ accel
            gyro_filter_ := env.Add e.gyro_filter_ gyro }, [Event.AddIMU m]) := by
        simp [ImuHandler, haccel, hgyro, htask]
      rw [hh]
      obtain ⟨e1, evs, hrest⟩ := ih
        { e with
            accel_filter_ := env.Add e.accel_filter_ accel
            gyro_filter_ := env.Add e.gyro_filter_ gyro } task htask
        (fun m hm => hwf m (List.mem_cons_of_mem _ hm))
      simp only [hrest]
      exact ⟨e1, _, rfl⟩
    · rw [if_neg hreg]
      exact ⟨e, [], rfl⟩

/-- The loop condition `SeenEnough()` with the frame limit unlimited and the
sensors not finished: false, whatever the counts. -/
theorem SeenEnough_unlimited {F : Type} (e : VicalibEngine F)
    (hlimit : e.flags.num_vicalib_frames = kCalibrateAllPossibleFrames)
    (hsens : e.sensors_finished_ = false) : SeenEnough e = Except.ok false := by
  simp [SeenEnough, hlimit, hsens]

/-- The loop condition `SeenEnough()` with one stream, a frame limit and the
sensors not finished: the count has reached the limit. -/
theorem SeenEnough_one_stream {F : Type} (e : VicalibEngine F) (c limit : Int)
    (hlimit : e.flags.num_vicalib_frames = limit) (hne : limit ≠ kCalibrateAllPossibleFrames)
    (hcounts : e.stats_.num_frames_processed = [c]) (hsens : e.sensors_finished_ = false) :
    SeenEnough e = Except.ok (decide (c ≥ limit)) := by
  unfold SeenEnough
  rw [hlimit, if_pos hne, hcounts]
  simp only [max_element, List.foldl_nil]
  by_cases hc : c ≥ limit
  · simp [hc]
  · simp [hc, hsens]

/-- A step with `frame_skip = 0`, the stability gate off, a successful
capture and a usable detection on the single stream admits its frame: the
count goes up by one and the skip counter stays 0. -/
theorem cameraStep_admits {F V : Type} (env : Env F V) (e : VicalibEngine F)
    (inp : StepInput V) (c : Int)
    (hskip : e.flags.frame_skip = 0) (hstatic : e.flags.use_only_when_static = false)
    (hfs : e.frames_skipped_ = 0) (hcounts : e.stats_.num_frames_processed = [c])
    (hc : c < INT_MAX) (htask : ∃ e0, ensureTask env e = Except.ok e0)
    (himu : ((∃ task, e.vicalib_ = some task) ∧ ∀ m ∈ inp.imu, m.accel ≠ none ∧ m.gyro ≠ none) ∨
      inp.imu = [])
    (hcap : inp.frame.captured = true) (hvalid : inp.frame.valid_frames = [true]) :
    ∃ e1 log, cameraStep env e inp = Except.ok (e1, log) ∧ e1.frames_skipped_ = 0 ∧
      e1.stats_.num_frames_processed = [c + 1] := by
  have hdel : ∃ ea evs, deliverImu env e inp.imu = Except.ok (ea, evs) ∧
      ∃ e0, ensureTask env ea = Except.ok e0 := by
    rcases himu with ⟨⟨task, hv⟩, hwf⟩ | hnil
    · obtain ⟨ea, evs, hd⟩ := deliverImu_total env inp.imu e task hv hwf
      refine ⟨ea, evs, hd, ea, ?_⟩
      have hea := (deliverImu_shape _ hd).1
      have : ea.vicalib_ = some task := by rw [hea]; exact hv
      simp [ensureTask, this]
    · rw [hnil]
      exact ⟨e, [], rfl, htask⟩
  obtain ⟨ea, evs, hd, e0, hens⟩ := hdel
  have hea := (deliverImu_shape _ hd).1
  obtain ⟨task, accel, gyro, he0⟩ := ensureTask_ok hens
  have h0skip : e0.flags.frame_skip = 0 := by rw [he0, hea]; exact hskip
  have h0static : e0.flags.use_only_when_static = false := by rw [he0, hea]; exact hstatic
  have h0fs : e0.frames_skipped_ = 0 := by rw [he0, hea]; exact hfs
  have h0counts : e0.stats_.num_frames_processed = [c] := by rw [he0, hea]; exact hcounts
  have hadm : admission env e0 inp.frame =
      Except.ok
        ({ e0 with
            frames_skipped_ := 0
            stats_ := { e0.stats_ with num_frames_processed := [c + 1] } },
          ([Event.AddSuperFrame inp.frame.valid_frames] : List (Event V))) := by
    have hreach : skipReached e0 = true := by simp [skipReached, h0fs, h0skip]
    have huse : should_use env e0 = true := by simp [should_use, h0static]
    have hcount : countValidFrames inp.frame.valid_frames 0 e0.stats_.num_frames_processed =
        Except.ok [c + 1] := by
      rw [hvalid, h0counts]
      simp [countValidFrames, incrementProcessed, hc]
    simp [admission, hreach, huse, hcap, hcount]
  have hstep : ∃ x, cameraStep env e inp = Except.ok x ∧ x.1.frames_skipped_ = 0 ∧
      x.1.stats_.num_frames_processed = [c + 1] := by
    simp only [cameraStep, hd, CameraLoop, hens, hadm]
    exact ⟨_, rfl, rfl, rfl⟩
  obtain ⟨⟨e1, log⟩, h1, h2, h3⟩ := hstep
  exact ⟨e1, log, h1, h2, h3⟩

/-- The capture loop of `Run` under a frame limit: with one stream,
`frame_skip = 0`, no stability gate, the count at `c < n` and enough good
frames in the script, the loop makes exactly `n - c` more `CameraLoop`
calls and is then left with the count at `n`. -/
theorem captureLoop_limit {F V : Type} (env : Env F V) (n : Nat)
    (frames : List (LoopInput V)) :
    ∀ (e : VicalibEngine F) (c : Nat),
      e.flags.frame_skip = 0 → e.flags.use_only_when_static = false →
      e.flags.num_vicalib_frames = n → e.frames_skipped_ = 0 →
      e.stats_.num_frames_processed = [(c : Int)] → e.sensors_finished_ = false →
      (∃ e0, ensureTask env e = Except.ok e0) →
      c < n → (n : Int) ≤ INT_MAX → n - c ≤ frames.length →
      (∀ inp ∈ frames, inp.step.frame.captured = true ∧ inp.step.frame.valid_frames = [true] ∧
        inp.running = false ∧ ∀ m ∈ inp.step.imu, m.accel ≠ none ∧ m.gyro ≠ none) →
      (e.vicalib_ = none → ∀ inp ∈ frames.head?, inp.step.imu = []) →
      ∃ trace e1, captureLoop env e frames [] = (trace, LoopEnd.left e1) ∧
        trace.countP isCapture = n - c ∧ e1.stats_.num_frames_processed = [(n : Int)] ∧
        publishedStatuses trace = List.replicate (n - c) CalibrationStatus.StatusCapturing := by
  induction frames with
  | nil =>
    intro e c _ _ _ _ _ _ _ hcn _ hlen _ _
    simp only [List.length_nil] at hlen
    omega
  | cons inp rest ih =>
    intro e c hskip hstatic hlimit hfs hcounts hsens htask hcn hmax hlen hgood hfirst
    obtain ⟨hcap, hvalid, hrun, hwf⟩ := hgood inp (List.mem_cons_self _ _)
    have himu : ((∃ task, e.vicalib_ = some task) ∧
        ∀ m ∈ inp.step.imu, m.accel ≠ none ∧ m.gyro ≠ none) ∨ inp.step.imu = [] := by
      cases hv : e.vicalib_ with
      | none => exact Or.inr (hfirst hv inp (by simp))
      | some task => exact Or.inl ⟨⟨task, rfl⟩, hwf⟩
    obtain ⟨e1, log, hstep, hfs1, hcounts1⟩ := cameraStep_admits env e inp.step c hskip hstatic
      hfs hcounts (by omega) htask himu hcap hvalid
    obtain ⟨hlc, ⟨task1, htask1⟩, ⟨accel, gyro, hflags⟩, hsens1, _, hstat, hfilt⟩ :=
      cameraStep_facts hstep
    rw [hcap] at hlc
    have hcount1 : log.events.countP isCapture = 1 := by
      rw [List.countP_eq_length_filter, hfilt]
      rfl
    have hlimit1 : e1.flags.num_vicalib_frames = n := by rw [hflags]; exact hlimit
    have hseen : SeenEnough e1 = Except.ok (decide ((c : Int) + 1 ≥ n)) :=
      SeenEnough_one_stream e1 (c + 1) n hlimit1
        (by unfold kCalibrateAllPossibleFrames; omega) hcounts1 (by rw [hsens1]; exact hsens)
    by_cases hlast : (c : Int) + 1 ≥ n
    · have hcn1 : c + 1 = n := by omega
      refine ⟨log.events, e1, ?_, ?_, ?_, ?_⟩
      · simp [captureLoop, hstep, hlc, htask1, hrun, hseen, hlast]
      · rw [hcount1]; omega
      · rw [hcounts1, ← hcn1]; simp
      · rw [hstat, show n - c = 1 by omega]; rfl
    · have hloop : captureLoop env e (inp :: rest) [] =
          (log.events ++ (captureLoop env e1 rest []).1, (captureLoop env e1 rest []).2) := by
        simp only [captureLoop, hstep, hlc, htask1, hrun, hseen, hlast, if_true,
          Bool.false_eq_true, if_false, decide_False, List.nil_append]
        rw [captureLoop_trace]
      obtain ⟨trace, e2, hrest, hcnt, hfinal, hstats⟩ := ih e1 (c + 1)
        (by rw [hflags]; exact hskip) (by rw [hflags]; exact hstatic) hlimit1 hfs1
        (by rw [hcounts1]; simp) (by rw [hsens1]; exact hsens)
        ⟨e1, by simp [ensureTask, htask1]⟩ (by omega) hmax
        (by simp only [List.length_cons] at hlen; omega)
        (fun i hi => hgood i (List.mem_cons_of_mem _ hi))
        (fun hnone => by rw [htask1] at hnone; cases hnone)
      refine ⟨log.events ++ trace, e2, ?_, ?_, hfinal, ?_⟩
      · rw [hloop, hrest]
      · rw [List.countP_append, hcount1, hcnt]; omega
      · rw [publishedStatuses_append, hstat, hstats, show n - c = (n - (c + 1)) + 1 by omega]
        rfl

/-- The first polling iteration starts by publishing a snapshot with that
iteration's readings. -/
theorem pollLoop_head {V : Type} (flags : Flags) (stats : CalibrationStats) (finished : Bool)
    (p : PollInput) (ps : List PollInput) :
    ∃ tail, (pollLoop flags stats finished (p :: ps) ([] : List (Event V))).trace =
      Event.UpdateStats (pullProgress stats p) :: tail := by
  simp only [pollLoop, pollBody, WriteCalibration]
  split_ifs
  · exact ⟨_, rfl⟩
  · simp only
    rw [pollLoop_trace]
    exact ⟨_, rfl⟩
  · simp only
    rw [pollLoop_trace]
    exact ⟨_, rfl⟩

/-- With the frame limit unlimited and the sensors not finished, the frame
counts never end the capture loop: while every capture succeeds and the
task is not running, control does not leave the loop. -/
theorem captureLoop_unlimited {F V : Type} (env : Env F V) (frames : List (LoopInput V)) :
    ∀ (e : VicalibEngine F),
      e.flags.num_vicalib_frames = kCalibrateAllPossibleFrames → e.sensors_finished_ = false →
      (∀ inp ∈ frames, inp.step.frame.captured = true ∧ inp.running = false) →
      ∀ trace e1, captureLoop env e frames [] ≠ (trace, LoopEnd.left e1) := by
  induction frames with
  | nil => intro e _ _ _ trace e1 h; simp [captureLoop] at h
  | cons inp rest ih =>
    intro e hlimit hsens hgood trace e1 hleft
    obtain ⟨hcap, hrun⟩ := hgood inp (List.mem_cons_self _ _)
    rcases captureLoop_cons env e inp rest with ⟨f, _, h⟩ | ⟨e2, log, hstep, h⟩
    · rw [h] at hleft; cases hleft
    · obtain ⟨_, _, ⟨accel, gyro, hflags⟩, hsens2, _⟩ := cameraStep_facts hstep
      have hlimit2 : e2.flags.num_vicalib_frames = kCalibrateAllPossibleFrames := by
        rw [hflags]; exact hlimit
      have hsens2' : e2.sensors_finished_ = false := by rw [hsens2]; exact hsens
      rcases h with ⟨_, hwhy⟩ | ⟨f, h⟩ | ⟨_, _, _, h⟩
      · rcases hwhy with hw | hw | hw
        · rw [hcap] at hw; cases hw
        · rw [hrun] at hw; cases hw
        · rw [SeenEnough_unlimited e2 hlimit2 hsens2'] at hw
          cases hw
      · rw [h] at hleft
        injection hleft with _ h2
        cases h2
      · rw [h] at hleft
        injection hleft with _ h2
        exact ih e2 hlimit2 hsens2' (fun i hi => hgood i (List.mem_cons_of_mem _ hi))
          (captureLoop env e2 rest []).1 e1 (Prod.ext rfl h2)

/-- C5. With one stream, `frame_skip = 0`, `use_only_when_static = false`
and the frame limit `n >= 1` (within the range of the `int` counts), from a
fresh engine state and with a task that is not running: when every capture
succeeds with a usable detection, the capture loop of `Run` makes exactly
`n` `CameraLoop` calls and is left with `num_frames_processed[0] = n`, and
the snapshot published next after the `n` Capturing snapshots has status
Optimizing. With the limit unlimited (-1) and the sensors not finished,
`SeenEnough` is false whatever the counts, and the capture loop is not left
while captures succeed and the task is not running. -/
theorem C5_frame_limit {F V : Type} (env : Env F V) (e : VicalibEngine F) (n : Nat)
    (frames : List (LoopInput V)) (opt : OptScript)
    (hn : 1 ≤ n) (hmax : (n : Int) ≤ INT_MAX)
    (hskip : e.flags.frame_skip = 0) (hstatic : e.flags.use_only_when_static = false)
    (hlimit : e.flags.num_vicalib_frames = n) (hfs : e.frames_skipped_ = 0)
    (hcounts : e.stats_.num_frames_processed = [0]) (hsens : e.sensors_finished_ = false)
    (htask : ∃ e0, ensureTask env e = Except.ok e0) (hlen : n ≤ frames.length)
    (hgood : ∀ inp ∈ frames, inp.step.frame.captured = true ∧
      inp.step.frame.valid_frames = [true] ∧ inp.running = false ∧
      ∀ m ∈ inp.step.imu, m.accel ≠ none ∧ m.gyro ≠ none)
    (hfirst : e.vicalib_ = none → ∀ inp ∈ frames.head?, inp.step.imu = []) :
    (∃ trace e1, captureLoop env e frames [] = (trace, LoopEnd.left e1) ∧
      trace.countP isCapture = n ∧ e1.stats_.num_frames_processed = [(n : Int)] ∧
      publishedStatuses trace = List.replicate n CalibrationStatus.StatusCapturing ∧
      (opt.running_at_entry = false → waitLoop opt.wait = true → opt.poll ≠ [] →
        ∃ snapshot tail,
          (Run env e ⟨frames, opt⟩).trace =
            trace ++ Event.StopSensors :: Event.Start e1.flags.has_initial_guess ::
              Event.UpdateStats snapshot :: tail ∧
          snapshot.status = CalibrationStatus.StatusOptimizing ∧
          snapshot.num_frames_processed = [(n : Int)])) ∧
    ∀ e2 : VicalibEngine F,
      e2.flags.num_vicalib_frames = kCalibrateAllPossibleFrames → e2.sensors_finished_ = false →
      SeenEnough e2 = Except.ok false ∧
        ∀ frames2 : List (LoopInput V),
          (∀ inp ∈ frames2, inp.step.frame.captured = true ∧ inp.running = false) →
          ∀ trace e3, captureLoop env e2 frames2 [] ≠ (trace, LoopEnd.left e3) := by
  refine ⟨?_, fun e2 hl hs => ⟨SeenEnough_unlimited e2 hl hs,
    fun frames2 hg => captureLoop_unlimited env frames2 e2 hl hs hg⟩⟩
  obtain ⟨trace, e1, hloop, hcnt, hfinal, hstat⟩ := captureLoop_limit env n frames e 0 hskip hstatic
    hlimit hfs (by simpa using hcounts) hsens htask (by omega) hmax (by omega) hgood hfirst
  refine ⟨trace, e1, hloop, by simpa using hcnt, hfinal, by simpa using hstat, ?_⟩
  intro hentry hwait hpoll
  obtain ⟨⟨task, hv⟩, _⟩ := captureLoop_left env frames e e1 trace hloop
  obtain ⟨p, ps, hps⟩ := List.exists_cons_of_ne_nil hpoll
  obtain ⟨tail, htail⟩ := pollLoop_head (V := V) e1.flags
    { e1.stats_ with status := CalibrationStatus.StatusOptimizing } false p ps
  refine ⟨pullProgress { e1.stats_ with status := CalibrationStatus.StatusOptimizing } p, tail,
    ?_, rfl, hfinal⟩
  rw [Run_left env e e1 ⟨frames, opt⟩ trace hloop]
  simp only
  rw [CalibrateAndDrawLoop_polling e1 opt task hv hwait, hps, htail]
  simp [hentry]

/-- The frame limit at `n = 5`, from the constructed one-camera engine. -/
theorem C5_frame_limit_witness :
    ∃ trace e1,
      VicalibEngine.construct specEnv fiveFrameFlags oneCameraHardware =
        Except.ok (freshEngine fiveFrameFlags) ∧
      captureLoop specEnv (freshEngine fiveFrameFlags) goodFrames [] = (trace, LoopEnd.left e1) ∧
      trace.countP isCapture = 5 ∧ e1.stats_.num_frames_processed = [5] ∧
      publishedStatuses
          (Run specEnv (freshEngine fiveFrameFlags) ⟨goodFrames, failureScript⟩).trace =
        [CalibrationStatus.StatusCapturing, CalibrationStatus.StatusCapturing,
          CalibrationStatus.StatusCapturing, CalibrationStatus.StatusCapturing,
          CalibrationStatus.StatusCapturing, CalibrationStatus.StatusOptimizing,
          CalibrationStatus.StatusOptimizing, CalibrationStatus.StatusFailure] := by
  obtain ⟨trace, e1, hloop, hcnt, hfinal, _⟩ :=
    (C5_frame_limit specEnv (freshEngine fiveFrameFlags) 5 goodFrames failureScript
      (by decide) (by decide) rfl rfl rfl rfl rfl rfl ⟨_, rfl⟩ (by decide) (by decide)
      (fun _ inp h => by cases h; rfl)).1
  exact ⟨trace, e1, rfl, hloop, hcnt, hfinal, by decide⟩

/-! ## Configuration failures -/

/-- A model count that differs from the channel count aborts `InitTask`
(the `CHECK_EQ`), and with it the first `CameraLoop`, before `Capture`. -/
theorem InitTask_count_mismatch {F V : Type} (env : Env F V) (e : VicalibEngine F)
    (inp : FrameInput) (hnone : e.vicalib_ = none)
    (h : (getlineItems [] e.flags.models.toList).length ≠ e.camera_.NumChannels) :
    InitTask env.defs e.flags e.camera_ = Except.error Fault.check_failed ∧
      CameraLoop env e inp = Except.error Fault.check_failed := by
  have hinit : InitTask env.defs e.flags e.camera_ = Except.error Fault.check_failed := by
    unfold InitTask
    simp only
    rw [if_pos h]
  exact ⟨hinit, by simp [CameraLoop, ensureTask, hnone, hinit]⟩

/-- The if-else chain of `InitTask` appends a camera exactly for the
recognised model types. -/
theorem starting_cam_isSome (type : String) (w h : Int) :
    (starting_cam type w h).isSome = recognisedModel type := by
  unfold starting_cam recognisedModel
  by_cases h1 : type = "fov"
  · simp [h1]
  · by_cases h2 : type = "poly2"
    · simp [h2]
    · by_cases h3 : type = "poly3"
      · simp [h3]
      · by_cases h4 : type = "poly"
        · simp [h4]
        · by_cases h5 : type = "kb4"
          · simp [h5]
          · simp [h1, h2, h3, h4, h5]

/-- C9 (code defect). An unrecognised camera-model type is not fatal. With
two channels and the models `fov,bogus`, the model count matches, the chain
on `type` appends nothing for `bogus`, and `InitTask` returns a task with a
single input camera; the first `CameraLoop` goes on to `Capture`. (A count
mismatch, as with the models `fov`, does abort before `Capture`.) -/
theorem C9_unrecognised_model_not_fatal :
    VicalibEngine.construct specEnv bogusModelFlags twoCameraHardware =
        Except.ok (freshTwoCameraEngine bogusModelFlags) ∧
      getlineItems [] bogusModelFlags.models.toList = ["fov", "bogus"] ∧
      recognisedModel "bogus" = false ∧
      (∃ task flags1,
        InitTask specEnv.defs bogusModelFlags ⟨[(640, 480), (320, 240)]⟩ =
          Except.ok (task, flags1) ∧
        task.num_cameras = 2 ∧ task.input_cameras.map (fun c => c.model) = [CameraModel.Fov]) ∧
      (∃ e1 evs,
        CameraLoop specEnv (freshTwoCameraEngine bogusModelFlags) ⟨true, [true, true]⟩ =
          Except.ok (true, e1, evs) ∧
        evs = [Event.Capture true, Event.AddSuperFrame [true, true],
          Event.UpdateStats e1.stats_, Event.Draw]) ∧
      CameraLoop (V := List Int) specEnv (freshTwoCameraEngine missingModelFlags)
          ⟨true, [true, true]⟩ = Except.error Fault.check_failed :=
  ⟨rfl, by decide, by decide, ⟨_, _, rfl, by decide, by decide⟩, ⟨_, _, rfl, rfl⟩, rfl⟩

/-! ## IMU messages -/

/-- With the task created, `ImuHandler` adds the accelerometer vector to the
accelerometer filter and the gyroscope vector to the gyroscope filter and
forwards the message to `AddIMU`. -/
theorem ImuHandler_task_exists {F V : Type} (env : Env F V) (e : VicalibEngine F)
    (imu : ImuMsg V) (accel gyro : V) (task : VicalibTask)
    (ha : imu.accel = some accel) (hg : imu.gyro = some gyro) (htask : e.vicalib_ = some task) :
    ImuHandler env e imu =
      Except.ok
        ({ e with
            accel_filter_ := env.Add e.accel_filter_ accel
            gyro_filter_ := env.Add e.gyro_filter_ gyro },
          [Event.AddIMU imu]) := by
  simp [ImuHandler, ha, hg, htask]

/-- Without a task, `ImuHandler` dereferences the null `vicalib_` for every
message that carries both vectors. -/
theorem ImuHandler_no_task {F V : Type} (env : Env F V) (e : VicalibEngine F)
    (imu : ImuMsg V) (accel gyro : V)
    (ha : imu.accel = some accel) (hg : imu.gyro = some gyro) (htask : e.vicalib_ = none) :
    ImuHandler env e imu = Except.error Fault.undefined := by
  simp [ImuHandler, ha, hg, htask]

/-- C10 (code defect). An IMU message that arrives after the constructor
has registered the handler and before the first `CameraLoop` has created
the task makes `ImuHandler` call `AddIMU` through the null `vicalib_`: the
constructed engine has the handler registered and no task, and the handler
faults on a message with both vectors. -/
theorem C10_imu_before_task_faults :
    VicalibEngine.construct specEnv oneCameraFlags oneCameraHardware =
        Except.ok (freshEngine oneCameraFlags) ∧
      (freshEngine oneCameraFlags).imu_registered = true ∧
      (freshEngine oneCameraFlags).vicalib_ = none ∧
      ImuHandler specEnv (freshEngine oneCameraFlags) (imuSample [500, 0, 0] [0, 0, 0]) =
        Except.error Fault.undefined ∧
      deliverImu specEnv (freshEngine oneCameraFlags) [imuSample [500, 0, 0] [0, 0, 0]] =
        Except.error Fault.undefined :=
  ⟨rfl, by decide, rfl, rfl, rfl⟩

/-! ## Sequences of steps that stay in defined behaviour -/

theorem incrementProcessed_total (counts : List Int) (ii : Nat) (hii : ii < counts.length)
    (hlt : counts.getD ii 0 < INT_MAX) :
    incrementProcessed counts ii = Except.ok (counts.set ii (counts.getD ii 0 + 1)) := by
  unfold incrementProcessed
  have hget : counts.get? ii = some (counts.getD ii 0) := by
    rw [List.get?_eq_getElem?, List.getD_eq_getElem?_getD, List.getElem?_eq_getElem hii]
    rfl
  rw [hget]
  simp only
  rw [if_pos hlt]

/-- The counting loop completes when every true entry of `valid_frames`
has a count to increment and no such count is at `INT_MAX`. -/
theorem countValidFrames_total (valid : List Bool) :
    ∀ (ii : Nat) (counts : List Int),
      (∀ t, valid.getD t false = true → ii + t < counts.length) →
      (∀ j, ii ≤ j → counts.getD j 0 < INT_MAX) →
      ∃ counts1, countValidFrames valid ii counts = Except.ok counts1 := by
  induction valid with
  | nil => intro ii counts _ _; exact ⟨counts, rfl⟩
  | cons v rest ih =>
    intro ii counts hidx hlt
    simp only [countValidFrames]
    have hrest : ∀ cs : List Int, cs.length = counts.length →
        ∀ t, rest.getD t false = true → ii + 1 + t < cs.length := by
      intro cs hcs t ht
      have := hidx (t + 1) (by simpa using ht)
      omega
    cases v with
    | false =>
      simp only [Bool.false_eq_true, if_false]
      exact ih (ii + 1) counts (hrest counts rfl) (fun j hj => hlt j (by omega))
    | true =>
      simp only [if_true]
      have hii : ii < counts.length := by
        have := hidx 0 (by simp)
        omega
      rw [incrementProcessed_total counts ii hii (hlt ii (le_refl _))]
      simp only
      refine ih (ii + 1) _ (hrest _ (by simp)) ?_
      intro j hj
      have hne : ii ≠ j := by omega
      rw [List.getD_eq_getElem?_getD, List.getElem?_set_ne hne, ← List.getD_eq_getElem?_getD]
      exact hlt j (by omega)

theorem incrementProcessed_length {counts counts1 : List Int} {ii : Nat}
    (h : incrementProcessed counts ii = Except.ok counts1) : counts1.length = counts.length := by
  unfold incrementProcessed at h
  split at h
  · cases h
  · split_ifs at h
    injection h with h
    subst h
    simp

theorem countValidFrames_length (valid : List Bool) :
    ∀ (ii : Nat) (counts counts1 : List Int),
      countValidFrames valid ii counts = Except.ok counts1 → counts1.length = counts.length := by
  induction valid with
  | nil =>
    intro ii counts counts1 h
    simp only [countValidFrames] at h
    injection h with h
    rw [h]
  | cons v rest ih =>
    intro ii counts counts1 h
    simp only [countValidFrames] at h
    cases v with
    | false =>
      simp only [Bool.false_eq_true, if_false] at h
      exact ih _ _ _ h
    | true =>
      simp only [if_true] at h
      cases hinc : incrementProcessed counts ii with
      | error f => rw [hinc] at h; cases h
      | ok counts2 =>
        rw [hinc] at h
        rw [ih _ _ _ h, incrementProcessed_length hinc]

/-- A completed step keeps the number of per-stream counts. -/
theorem cameraStep_length {F V : Type} {env : Env F V} {e e1 : VicalibEngine F}
    {inp : StepInput V} {log : StepLog V} (h : cameraStep env e inp = Except.ok (e1, log)) :
    e1.stats_.num_frames_processed.length = e.stats_.num_frames_processed.length := by
  obtain ⟨ea, imuEvs, e0, e2, adm, himu, hens, hadm, he1, hlog⟩ := cameraStep_ok h
  obtain ⟨hea, _⟩ := deliverImu_shape _ himu
  obtain ⟨task, accel, gyro, he0⟩ := ensureTask_ok hens
  have hstats : e0.stats_ = e.stats_ := by rw [he0, hea]
  have h1 : e1.stats_.num_frames_processed = e2.stats_.num_frames_processed := by rw [he1]
  rw [h1]
  rcases admission_counts hadm with ⟨_, hsame⟩ | ⟨_, hcount⟩
  · rw [hsame, hstats]
  · rw [countValidFrames_length _ _ _ _ hcount, hstats]

/-- A step completes when the task exists or can be created, the IMU
messages before it can be handled, every usable detection has a count to
increment and no count is at `INT_MAX`. -/
theorem cameraStep_total {F V : Type} (env : Env F V) (e : VicalibEngine F)
    (inp : StepInput V) (htask : ∃ e0, ensureTask env e = Except.ok e0)
    (himu : ((∃ task, e.vicalib_ = some task) ∧ ∀ m ∈ inp.imu, m.accel ≠ none ∧ m.gyro ≠ none) ∨
      inp.imu = [])
    (hidx : ∀ t, inp.frame.valid_frames.getD t false = true →
      t < e.stats_.num_frames_processed.length)
    (hlt : ∀ j, e.stats_.num_frames_processed.getD j 0 < INT_MAX) :
    ∃ e1 log, cameraStep env e inp = Except.ok (e1, log) := by
  have hdel : ∃ ea evs, deliverImu env e inp.imu = Except.ok (ea, evs) ∧
      ∃ e0, ensureTask env ea = Except.ok e0 := by
    rcases himu with ⟨⟨task, hv⟩, hwf⟩ | hnil
    · obtain ⟨ea, evs, hd⟩ := deliverImu_total env inp.imu e task hv hwf
      refine ⟨ea, evs, hd, ea, ?_⟩
      have hea := (deliverImu_shape _ hd).1
      have : ea.vicalib_ = some task := by rw [hea]; exact hv
      simp [ensureTask, this]
    · rw [hnil]
      exact ⟨e, [], rfl, htask⟩
  obtain ⟨ea, evs, hd, e0, hens⟩ := hdel
  have hea := (deliverImu_shape _ hd).1
  obtain ⟨task, accel, gyro, he0⟩ := ensureTask_ok hens
  have hstats : e0.stats_ = e.stats_ := by rw [he0, hea]
  obtain ⟨counts1, hcount⟩ := countValidFrames_total inp.frame.valid_frames 0
    e0.stats_.num_frames_processed (by rw [hstats]; simpa using hidx)
    (by rw [hstats]; exact fun j _ => hlt j)
  have hadm : ∃ x, admission env e0 inp.frame = Except.ok x := by
    unfold admission
    split_ifs
    · rw [hcount]
      exact ⟨_, rfl⟩
    · exact ⟨_, rfl⟩
    · exact ⟨_, rfl⟩
  obtain ⟨⟨e2, adm⟩, hadm⟩ := hadm
  have hstep : ∃ x, cameraStep env e inp = Except.ok x := by
    simp only [cameraStep, hd, CameraLoop, hens, hadm]
    exact ⟨_, rfl⟩
  obtain ⟨⟨e1, log⟩, h1⟩ := hstep
  exact ⟨e1, log, h1⟩

/-- A sequence of steps completes when the task exists or can be created,
no IMU message arrives before the task exists, all IMU messages carry both
vectors, the validity vectors fit the stream count, and the sequence is
short enough for the `int` counts. -/
theorem CameraLoops_total {F V : Type} (env : Env F V) (steps : List (StepInput V)) :
    ∀ (e : VicalibEngine F) (k : Nat),
      (∃ e0, ensureTask env e = Except.ok e0) →
      (∀ j, e.stats_.num_frames_processed.getD j 0 ≤ k) →
      ((k + steps.length : Nat) : Int) ≤ INT_MAX →
      (∀ inp ∈ steps, (∀ m ∈ inp.imu, m.accel ≠ none ∧ m.gyro ≠ none) ∧
        ∀ t, inp.frame.valid_frames.getD t false = true →
          t < e.stats_.num_frames_processed.length) →
      (e.vicalib_ = none → ∀ inp ∈ steps.head?, inp.imu = []) →
      ∃ logs e1, CameraLoops env e steps = (logs, Except.ok e1) := by
  induction steps with
  | nil => intro e k _ _ _ _ _; exact ⟨[], e, rfl⟩
  | cons inp rest ih =>
    intro e k htask hle hmax hgood hfirst
    obtain ⟨hwf, hidx⟩ := hgood inp (List.mem_cons_self _ _)
    have himu : ((∃ task, e.vicalib_ = some task) ∧
        ∀ m ∈ inp.imu, m.accel ≠ none ∧ m.gyro ≠ none) ∨ inp.imu = [] := by
      cases hv : e.vicalib_ with
      | none => exact Or.inr (hfirst hv inp (by simp))
      | some task => exact Or.inl ⟨⟨task, rfl⟩, hwf⟩
    simp only [List.length_cons] at hmax
    obtain ⟨e1, log, hstep⟩ := cameraStep_total env e inp htask himu hidx
      (fun j => by have := hle j; push_cast at hmax; omega)
    obtain ⟨_, ⟨task1, htask1⟩, _⟩ := cameraStep_facts hstep
    have hlen := cameraStep_length hstep
    obtain ⟨logs, e2, hrest⟩ := ih e1 (k + 1) ⟨e1, by simp [ensureTask, htask1]⟩
      (fun j => by
        have h1 := (cameraStep_count hstep j).1
        have h2 := hle j
        rw [h1]
        split_ifs <;> push_cast <;> omega)
      (by push_cast at hmax ⊢; omega)
      (fun i hi => ⟨(hgood i (List.mem_cons_of_mem _ hi)).1, fun t ht => by
        rw [hlen]; exact (hgood i (List.mem_cons_of_mem _ hi)).2 t ht⟩)
      (fun hnone => by rw [htask1] at hnone; cases hnone)
    exact ⟨log :: logs, e2, by simp only [CameraLoops, hstep, hrest]⟩

/-- C3. Starting from a freshly constructed engine, after any sequence of
`CameraLoop` steps `num_frames_processed[i]` equals the number of steps that
admitted their frame (called `AddSuperFrame`) with a validity vector true at
index `i`; it never exceeds the number of admitted frames; and it never
decreases from one point of the sequence to a later one. The sequence runs
to its end whenever the task can be created, the IMU messages carry both
vectors and none arrives before the first step, the validity vectors fit
the stream count and the steps are few enough for the `int` counts. -/
theorem C3_counts_admitted_valid {F V : Type} (env : Env F V) (flags : Flags) (hw : Hardware)
    (e0 : VicalibEngine F) (steps : List (StepInput V)) (i : Nat)
    (hfresh : VicalibEngine.construct env flags hw = Except.ok e0) :
    ((∃ e, ensureTask env e0 = Except.ok e) → (steps.length : Int) ≤ INT_MAX →
      (∀ inp ∈ steps, (∀ m ∈ inp.imu, m.accel ≠ none ∧ m.gyro ≠ none) ∧
        ∀ t, inp.frame.valid_frames.getD t false = true →
          t < e0.stats_.num_frames_processed.length) →
      (∀ inp ∈ steps.head?, inp.imu = []) →
      ∃ logs e1, CameraLoops env e0 steps = (logs, Except.ok e1)) ∧
    ∀ (logs : List (StepLog V)) (e1 : VicalibEngine F),
      CameraLoops env e0 steps = (logs, Except.ok e1) →
      e1.stats_.num_frames_processed.getD i 0 = (logs.countP (StepLog.admittedValid i) : Nat) ∧
        logs.countP (StepLog.admittedValid i) ≤ logs.countP StepLog.admitted ∧
        ∀ (s1 s2 : List (StepInput V)) (logs1 : List (StepLog V)) (emid : VicalibEngine F),
          steps = s1 ++ s2 → CameraLoops env e0 s1 = (logs1, Except.ok emid) →
          emid.stats_.num_frames_processed.getD i 0 ≤
            e1.stats_.num_frames_processed.getD i 0 := by
  have hzero : ∀ j, e0.stats_.num_frames_processed.getD j 0 = 0 := by
    intro j
    unfold VicalibEngine.construct at hfresh
    split_ifs at hfresh
    split at hfresh
    · cases hfresh
    · injection hfresh with hfresh
      subst hfresh
      simp only [CalibrationStats.create]
      rw [List.getD_eq_getElem?_getD]
      by_cases hj : j < List.length (List.replicate (Camera.NumChannels ‹Camera›) (0 : Int))
      · rw [List.getElem?_eq_getElem hj]
        simp
      · rw [List.getElem?_eq_none (by omega)]
        rfl
  refine ⟨?_, ?_⟩
  · intro htask hmax hgood hfirst
    exact CameraLoops_total env steps e0 0 htask (fun j => by rw [hzero j]; rfl)
      (by simpa using hmax) hgood (fun _ => hfirst)
  · intro logs e1 hrun
    refine ⟨?_, countP_admittedValid_le logs i (CameraLoops_admittedValid steps hrun i), ?_⟩
    · rw [CameraLoops_counts steps hrun i, hzero i]
      simp
    · intro s1 s2 logs1 emid hsplit hpre
      subst hsplit
      obtain ⟨emid1, logsa, logsb, ha, hb, _⟩ := CameraLoops_append_ok s1 s2 hrun
      rw [hpre] at ha
      simp only [Prod.mk.injEq] at ha
      obtain ⟨_, hmid⟩ := ha
      injection hmid with hmid
      subst hmid
      rw [CameraLoops_counts s2 hb i]
      omega

/-- A two-camera session of three steps: the counts end at `[2, 1]`. -/
theorem C3_counts_admitted_valid_witness :
    ∃ e0 logs e1,
      VicalibEngine.construct specEnv twoCameraFlags twoCameraHardware = Except.ok e0 ∧
      CameraLoops specEnv e0 threeSteps = (logs, Except.ok e1) ∧
      e1.stats_.num_frames_processed = [2, 1] ∧
      logs.map StepLog.admitted = [true, false, true] ∧
      e1.stats_.num_frames_processed.getD 1 0 =
        (logs.countP (StepLog.admittedValid 1) : Nat) :=
  ⟨_, _, _, rfl, rfl, by decide, by decide,
    ((C3_counts_admitted_valid specEnv twoCameraFlags twoCameraHardware _ threeSteps 1
      rfl).2 _ _ rfl).1⟩

/-! ## The range of the skip counter -/

/-- What the constructor leaves in the fields the skip policy reads. -/
theorem construct_skip_state {F V : Type} {env : Env F V} {flags : Flags} {hw : Hardware}
    {e0 : VicalibEngine F} (h : VicalibEngine.construct env flags hw = Except.ok e0) :
    e0.flags = flags ∧ e0.frames_skipped_ = 0 := by
  unfold VicalibEngine.construct at h
  split_ifs at h
  split at h
  · cases h
  · injection h with h
    subst h
    exact ⟨rfl, rfl⟩

/-- One completed step keeps the skip counter between 0 and `frame_skip`. -/
theorem cameraStep_counter_range {F V : Type} {env : Env F V} {e e1 : VicalibEngine F}
    {inp : StepInput V} {log : StepLog V} (N : Nat)
    (h : cameraStep env e inp = Except.ok (e1, log)) (hN : e.flags.frame_skip = N)
    (hlo : 0 ≤ e.frames_skipped_) (hhi : e.frames_skipped_ ≤ N) :
    0 ≤ e1.frames_skipped_ ∧ e1.frames_skipped_ ≤ N := by
  obtain ⟨_, hev, hadm, hsame, hskip⟩ := cameraStep_skip h
  cases hl : log.evaluated with
  | false =>
    obtain ⟨_, hfs⟩ := hskip hl
    rw [hl, hN] at hev
    have hlt : ¬ (e.frames_skipped_ ≥ (N : Int)) := by
      intro hge
      simp [hge] at hev
    rw [hfs]
    omega
  | true =>
    cases ha : log.admitted with
    | false =>
      rw [hsame hl ha]
      exact ⟨hlo, hhi⟩
    | true =>
      rw [(hadm ha).2]
      omega

/-- Every completed sequence of steps keeps the skip counter between 0 and
`frame_skip`. -/
theorem CameraLoops_counter_range {F V : Type} {env : Env F V} (N : Nat)
    (steps : List (StepInput V)) :
    ∀ {e e1 : VicalibEngine F} {logs : List (StepLog V)},
      e.flags.frame_skip = N → 0 ≤ e.frames_skipped_ → e.frames_skipped_ ≤ N →
      CameraLoops env e steps = (logs, Except.ok e1) →
      0 ≤ e1.frames_skipped_ ∧ e1.frames_skipped_ ≤ N := by
  induction steps with
  | nil =>
    intro e e1 logs _ hlo hhi h
    simp only [CameraLoops, Prod.mk.injEq] at h
    obtain ⟨_, h2⟩ := h
    injection h2 with h2
    subst h2
    exact ⟨hlo, hhi⟩
  | cons inp rest ih =>
    intro e e1 logs hN hlo hhi h
    obtain ⟨emid, log, logs1, hstep, hrest, _⟩ := CameraLoops_cons_ok h
    obtain ⟨hlo1, hhi1⟩ := cameraStep_counter_range N hstep hN hlo hhi
    exact ih (by rw [(cameraStep_skip hstep).1, hN]) hlo1 hhi1 hrest

/-- The state right after an admitting step has the skip counter at 0. -/
theorem CameraLoops_admit_resets {F V : Type} {env : Env F V} (steps : List (StepInput V)) :
    ∀ {e e1 : VicalibEngine F} {logs : List (StepLog V)} (k : Nat) (l : StepLog V),
      CameraLoops env e steps = (logs, Except.ok e1) → logs[k]? = some l →
      l.admitted = true →
      ∃ logsk ek, CameraLoops env e (steps.take (k + 1)) = (logsk, Except.ok ek) ∧
        ek.frames_skipped_ = 0 := by
  induction steps with
  | nil =>
    intro e e1 logs k l h hk
    simp only [CameraLoops, Prod.mk.injEq] at h
    rw [← h.1] at hk
    simp at hk
  | cons inp rest ih =>
    intro e e1 logs k l h hk ha
    obtain ⟨emid, log, logs1, hstep, hrest, hlogs⟩ := CameraLoops_cons_ok h
    subst hlogs
    cases k with
    | zero =>
      simp only [List.getElem?_cons_zero, Option.some.injEq] at hk
      subst hk
      refine ⟨[log], emid, ?_, ((cameraStep_skip hstep).2.2.1 ha).2⟩
      simp [CameraLoops, hstep]
    | succ k =>
      simp only [List.getElem?_cons_succ] at hk
      obtain ⟨logsk, ek, hrun, hz⟩ := ih k l hrest hk ha
      refine ⟨log :: logsk, ek, ?_, hz⟩
      simp only [List.take_succ_cons, CameraLoops, hstep, hrun]

/-- After an admitting step the next `frame_skip` steps admit nothing. -/
theorem CameraLoops_separation {F V : Type} {env : Env F V} (N : Nat)
    (steps : List (StepInput V)) :
    ∀ {e e1 : VicalibEngine F} {logs : List (StepLog V)} (a c : Nat) (la lc : StepLog V),
      e.flags.frame_skip = N → CameraLoops env e steps = (logs, Except.ok e1) →
      logs[a]? = some la → logs[c]? = some lc → la.admitted = true →
      a < c → c ≤ a + N → lc.admitted = false := by
  induction steps with
  | nil =>
    intro e e1 logs a c la lc _ h ha
    simp only [CameraLoops, Prod.mk.injEq] at h
    rw [← h.1] at ha
    simp at ha
  | cons inp rest ih =>
    intro e e1 logs a c la lc hN h ha hc hadm hac hcN
    obtain ⟨emid, log, logs1, hstep, hrest, hlogs⟩ := CameraLoops_cons_ok h
    subst hlogs
    obtain ⟨hfl, _, hres, _, _⟩ := cameraStep_skip hstep
    cases c with
    | zero => omega
    | succ c =>
      simp only [List.getElem?_cons_succ] at hc
      cases a with
      | succ a =>
        simp only [List.getElem?_cons_succ] at ha
        exact ih a c la lc (by rw [hfl, hN]) hrest ha hc hadm (by omega) (by omega)
      | zero =>
        simp only [List.getElem?_cons_zero, Option.some.injEq] at ha
        subst ha
        have hz := (hres hadm).2
        have hcool := CameraLoops_cooldown N rest N (by rw [hfl, hN]) hrest
          (by rw [hz]; omega)
        rw [List.countP_eq_zero] at hcool
        have hmem : lc ∈ logs1.take N :=
          List.getElem?_mem (n := c) (by
            have hlt : c < N := by omega
            rw [List.getElem?_take_of_lt hlt]
            exact hc)
        cases hl : lc.admitted with
        | false => rfl
        | true => exact absurd hl (hcool lc hmem)

/-- C11. With `frame_skip = N >= 0`, along every sequence of `CameraLoop`
steps from a freshly constructed engine (`frames_skipped_ = 0`) the skip
counter stays within `0 <= frames_skipped_ <= N`, at the end and after
every prefix of the sequence; the state right after a step that admits its
frame has the counter at 0; among any `N + 1` consecutive steps at most one
admits its frame; and the `N` steps after an admitting step admit nothing,
so two admitting steps are more than `N` steps apart. -/
theorem C11_skip_counter_invariant {F V : Type} (env : Env F V) (flags : Flags) (hw : Hardware)
    (e0 e1 : VicalibEngine F) (steps : List (StepInput V)) (logs : List (StepLog V)) (N : Nat)
    (hfresh : VicalibEngine.construct env flags hw = Except.ok e0)
    (hN : flags.frame_skip = N)
    (hrun : CameraLoops env e0 steps = (logs, Except.ok e1)) :
    e0.frames_skipped_ = 0 ∧
      (0 ≤ e1.frames_skipped_ ∧ e1.frames_skipped_ ≤ N) ∧
      (∀ k, ∃ logsk ek, CameraLoops env e0 (steps.take k) = (logsk, Except.ok ek) ∧
        0 ≤ ek.frames_skipped_ ∧ ek.frames_skipped_ ≤ N) ∧
      (∀ (k : Nat) (l : StepLog V), logs[k]? = some l → l.admitted = true →
        ∃ logsk ek, CameraLoops env e0 (steps.take (k + 1)) = (logsk, Except.ok ek) ∧
          ek.frames_skipped_ = 0) ∧
      (∀ k, ((logs.drop k).take (N + 1)).countP StepLog.admitted ≤ 1) ∧
      (∀ (a c : Nat) (la lc : StepLog V), logs[a]? = some la → logs[c]? = some lc →
        la.admitted = true → a < c → c ≤ a + N → lc.admitted = false) ∧
      ∀ (a b : Nat) (la lb : StepLog V), logs[a]? = some la → logs[b]? = some lb →
        la.admitted = true → lb.admitted = true → a < b → a + N < b := by
  obtain ⟨hflags, hzero⟩ := construct_skip_state hfresh
  have hN0 : e0.flags.frame_skip = N := by rw [hflags]; exact hN
  have hlo : (0 : Int) ≤ e0.frames_skipped_ := by rw [hzero]
  have hhi : e0.frames_skipped_ ≤ (N : Int) := by rw [hzero]; omega
  have hsep : ∀ (a c : Nat) (la lc : StepLog V), logs[a]? = some la → logs[c]? = some lc →
      la.admitted = true → a < c → c ≤ a + N → lc.admitted = false :=
    fun a c la lc ha hc hadm hac hcN =>
      CameraLoops_separation N steps a c la lc hN0 hrun ha hc hadm hac hcN
  refine ⟨hzero, CameraLoops_counter_range N steps hN0 hlo hhi hrun, ?_, ?_, ?_, hsep, ?_⟩
  · intro k
    have hsplit : CameraLoops env e0 (steps.take k ++ steps.drop k) = (logs, Except.ok e1) := by
      rw [List.take_append_drop]
      exact hrun
    obtain ⟨emid, logs1, logs2, hpre, _, _⟩ := CameraLoops_append_ok _ _ hsplit
    exact ⟨logs1, emid, hpre, CameraLoops_counter_range N _ hN0 hlo hhi hpre⟩
  · intro k l hk ha
    exact CameraLoops_admit_resets steps k l hrun hk ha
  · intro k
    exact CameraLoops_window N steps k (N + 1) hN0 hrun (le_refl _)
  · intro a b la lb ha hb hadma hadmb hab
    by_contra hnot
    have := hsep a b la lb ha hb hadma hab (by omega)
    rw [hadmb] at this
    cases this

/-- Seven captured frames with `frame_skip = 2` and no stability gate: the
third and the sixth frame are admitted, and the counter ends at 1. -/
theorem C11_skip_counter_invariant_witness :
    ∃ logs e1,
      VicalibEngine.construct specEnv skipTwoFlags oneCameraHardware =
        Except.ok (freshEngine skipTwoFlags) ∧
      skipTwoFlags.frame_skip = (2 : Nat) ∧
      CameraLoops specEnv (freshEngine skipTwoFlags) sevenCaptures = (logs, Except.ok e1) ∧
      logs.map StepLog.admitted = [false, false, true, false, false, true, false] ∧
      e1.frames_skipped_ = 1 ∧
      (0 ≤ e1.frames_skipped_ ∧ e1.frames_skipped_ ≤ (2 : Nat)) ∧
      ∀ k, ((logs.drop k).take (2 + 1)).countP StepLog.admitted ≤ 1 :=
  ⟨_, _, rfl, rfl, rfl, by decide, by decide,
    (C11_skip_counter_invariant specEnv skipTwoFlags oneCameraHardware _ _ sevenCaptures _ 2
      rfl rfl rfl).2.1,
    (C11_skip_counter_invariant specEnv skipTwoFlags oneCameraHardware _ _ sevenCaptures _ 2
      rfl rfl rfl).2.2.2.2.1⟩

end Vicalib
